import Mathlib

/-!
Verification development for the resampling engine of qtpylib
(src/qtpylib/tools.py): the functions resample and its inner helper
resample_ticks, which convert multi-symbol tick or bar streams into
fixed-granularity OHLC(V) series.

Shallow embedding conventions:
  - a pandas NaN cell is modelled as none : Option Rat; a present value as
    some q.  Prices and sizes are exact rationals (the Python source works
    on IEEE floats; the inputs exercised here are small integers for which
    float arithmetic is exact, and the float-dust-cleaning inner roundings
    of the source are modelled exactly as written).
  - a DataFrame of ticks or of bars is a FrameData; the index timezone of
    the frame is carried separately as an Option String (none = tz-naive),
    mirroring DatetimeIndex.tz.
  - numpy/pandas reductions first/last/max/min skip NaN; sum of the values
    of a non-empty group skips NaN and returns 0 when all are NaN.
  - Python round (and numpy round) round half to even; this is pyRound.
  - the pytz zone table is an external collaborator; it is abstracted as a
    Boolean predicate on zone names (a parameter vtz), with the facts that
    a real zone name such as UTC is accepted and the string None - the
    str() of the Python None object - is not, supplied as hypotheses.
-/

/-- Python round(x): round half to even (also numpy's rounding). -/
def pyRound (q : ℚ) : ℤ :=
  if q - ⌊q⌋ < 1/2 then ⌊q⌋
  else if (1:ℚ)/2 < q - ⌊q⌋ then ⌊q⌋ + 1
  else if ⌊q⌋ % 2 = 0 then ⌊q⌋ else ⌊q⌋ + 1

/-- numpy float-to-int cast: truncation toward zero. -/
def truncQ (q : ℚ) : ℤ := if 0 ≤ q then ⌊q⌋ else ⌈q⌉

/-- Forward fill of one DataFrame column (fillna method ffill):
each NaN cell takes the most recent non-NaN value above it, if any. -/
def ffillCol {α : Type} (prev : Option α) : List (Option α) → List (Option α)
  | [] => []
  | none :: xs => prev :: ffillCol prev xs
  | some v :: xs => some v :: ffillCol (some v) xs

/-- Last non-none value of a column, starting from a previous state
(the reduction underlying a forward fill / a groupby last). -/
def lastSomeO {α : Type} (init : Option α) (l : List (Option α)) : Option α :=
  l.foldl (fun a x => x.orElse (fun _ => a)) init

/-- One input tick row (the tick flavour of the input schema):
index timestamp, symbol metadata, price column last, size column lastsize,
and the nine-plus-one auxiliary option columns carried by the source. -/
structure Tick where
  time : ℤ
  symbol : String
  symbol_group : String
  asset_class : String
  last : Option ℚ
  lastsize : Option ℚ
  opt_price : Option ℚ
  opt_underlying : Option ℚ
  opt_dividend : Option ℚ
  opt_volume : Option ℚ
  opt_iv : Option ℚ
  opt_oi : Option ℚ
  opt_delta : Option ℚ
  opt_gamma : Option ℚ
  opt_theta : Option ℚ
  opt_vega : Option ℚ
  deriving DecidableEq, Repr

/-- One bar row (the pre-aggregated flavour of the input schema, and also
the row type of every aggregated output). -/
structure BarRow where
  time : ℤ
  symbol : String
  symbol_group : String
  asset_class : String
  open_ : Option ℚ
  high : Option ℚ
  low : Option ℚ
  close : Option ℚ
  volume : Option ℚ
  opt_price : Option ℚ
  opt_underlying : Option ℚ
  opt_dividend : Option ℚ
  opt_volume : Option ℚ
  opt_iv : Option ℚ
  opt_oi : Option ℚ
  opt_delta : Option ℚ
  opt_gamma : Option ℚ
  opt_theta : Option ℚ
  opt_vega : Option ℚ
  deriving DecidableEq, Repr

/-- The twelve-column working frame built at the top of resample_ticks:
the price and size columns (last/lastsize for ticks, close/volume for bars,
chosen by the try/except column probe of the source) plus the opt columns. -/
structure RTRow where
  time : ℤ
  price : Option ℚ
  size : Option ℚ
  opt_price : Option ℚ
  opt_underlying : Option ℚ
  opt_dividend : Option ℚ
  opt_volume : Option ℚ
  opt_iv : Option ℚ
  opt_oi : Option ℚ
  opt_delta : Option ℚ
  opt_gamma : Option ℚ
  opt_theta : Option ℚ
  opt_vega : Option ℚ
  deriving DecidableEq, Repr

def Tick.toRT (r : Tick) : RTRow :=
  { time := r.time, price := r.last, size := r.lastsize,
    opt_price := r.opt_price, opt_underlying := r.opt_underlying,
    opt_dividend := r.opt_dividend, opt_volume := r.opt_volume,
    opt_iv := r.opt_iv, opt_oi := r.opt_oi, opt_delta := r.opt_delta,
    opt_gamma := r.opt_gamma, opt_theta := r.opt_theta, opt_vega := r.opt_vega }

def BarRow.toRT (r : BarRow) : RTRow :=
  { time := r.time, price := r.close, size := r.volume,
    opt_price := r.opt_price, opt_underlying := r.opt_underlying,
    opt_dividend := r.opt_dividend, opt_volume := r.opt_volume,
    opt_iv := r.opt_iv, opt_oi := r.opt_oi, opt_delta := r.opt_delta,
    opt_gamma := r.opt_gamma, opt_theta := r.opt_theta, opt_vega := r.opt_vega }

/-- cumsum of the size column (pandas skipna cumulative sum: NaN cells stay
NaN, later cells continue from the last running total). -/
def cumsumSkip (acc : ℚ) : List (Option ℚ) → List (Option ℚ)
  | [] => []
  | none :: xs => none :: cumsumSkip acc xs
  | some s :: xs => some (acc + s) :: cumsumSkip (acc + s) xs

/-- The mark column of resample_ticks divided by freq (an integer):
round(round(round(cumvol / .1) * .1, 2) / freq).  The df value of the mark
column itself is this times freq. -/
def markOf (freq : ℕ) (c : ℚ) : ℤ :=
  let a : ℚ := (pyRound (c / (1/10)) : ℚ) * (1/10)
  let b : ℚ := (pyRound (a * 100) : ℚ) / 100
  pyRound (b / (freq : ℚ))

/-- diff of the mark column followed by fillna(0) and astype(int):
first cell and cells adjoining a NaN mark become 0. -/
def diffFill : Option ℤ → List (Option ℤ) → List ℤ
  | _, [] => []
  | prev, x :: xs =>
    (match prev, x with
     | some a, some b => b - a
     | _, _ => 0) :: diffFill x xs

/-- Volume-mode grp markers (lines 241-244 of tools.py):
cumvol = cumsum(size); mark = round-to-nearest-multiple-of-freq of cumvol
(after rounding to the nearest 0.1); grp = mark/freq where
diff(mark) >= freq-1, NaN elsewhere. -/
def volGrpMarkers (freq : ℕ) (sizes : List (Option ℚ)) : List (Option ℤ) :=
  let cums := cumsumSkip 0 sizes
  let marks := cums.map (Option.map (fun c => markOf freq c * (freq : ℤ)))
  let diffs := diffFill none marks
  List.zipWith
    (fun d m => if (freq : ℤ) - 1 ≤ d then m.map (fun v => v / (freq : ℤ)) else none)
    diffs marks

/-- Tick-mode grp markers (line 246 of tools.py):
grp row i is i when i % freq == 0, NaN otherwise. -/
def tickGrpMarkers (freq : ℕ) (n : ℕ) : List (Option ℤ) :=
  (List.range n).map (fun i => if i % freq = 0 then some (i : ℤ) else none)

/-- Line 248 of tools.py, df.loc[:1, 'grp'] = 0: the very first row is
forced into bucket 0 (the legacy boundary rule stated by the spec; in tick
mode row 0 already carries marker 0, so this only matters in volume mode). -/
def forceFirst : List (Option ℤ) → List (Option ℤ)
  | [] => []
  | _ :: xs => some 0 :: xs

/-- The grp column after the forward fill of line 250. -/
def grpsOf (markers : List (Option ℤ)) : List (Option ℤ) :=
  ffillCol none (forceFirst markers)

def rtNone : RTRow :=
  { time := 0, price := none, size := none,
    opt_price := none, opt_underlying := none, opt_dividend := none,
    opt_volume := none, opt_iv := none, opt_oi := none, opt_delta := none,
    opt_gamma := none, opt_theta := none, opt_vega := none }

/-- df.fillna(method='ffill') on the working frame: every data column is
forward filled (the source fills the whole frame, not only grp). -/
def ffillRT (prev : RTRow) : List RTRow → List RTRow
  | [] => []
  | r :: rs =>
    let r2 : RTRow :=
      { time := r.time,
        price := r.price.orElse (fun _ => prev.price),
        size := r.size.orElse (fun _ => prev.size),
        opt_price := r.opt_price.orElse (fun _ => prev.opt_price),
        opt_underlying := r.opt_underlying.orElse (fun _ => prev.opt_underlying),
        opt_dividend := r.opt_dividend.orElse (fun _ => prev.opt_dividend),
        opt_volume := r.opt_volume.orElse (fun _ => prev.opt_volume),
        opt_iv := r.opt_iv.orElse (fun _ => prev.opt_iv),
        opt_oi := r.opt_oi.orElse (fun _ => prev.opt_oi),
        opt_delta := r.opt_delta.orElse (fun _ => prev.opt_delta),
        opt_gamma := r.opt_gamma.orElse (fun _ => prev.opt_gamma),
        opt_theta := r.opt_theta.orElse (fun _ => prev.opt_theta),
        opt_vega := r.opt_vega.orElse (fun _ => prev.opt_vega) }
    r2 :: ffillRT r2 rs

/-- groupby key order: keys in order of first occurrence
(groupby with sort=False). -/
def keysInOrderAux (seen : List ℤ) : List ℤ → List ℤ
  | [] => []
  | k :: ks =>
    if k ∈ seen then keysInOrderAux seen ks
    else k :: keysInOrderAux (k :: seen) ks

def keysInOrder (l : List ℤ) : List ℤ := keysInOrderAux [] l

/-- groupby over the grp index: all rows sharing a key form one group,
groups listed in order of first key occurrence; NaN keys were dropped
before this point. -/
def groupRows (rows : List (ℤ × RTRow)) : List (ℤ × List RTRow) :=
  (keysInOrder (rows.map Prod.fst)).map
    (fun k => (k, (rows.filter (fun x => x.1 = k)).map Prod.snd))

/-- groupby first: first non-NaN value of a column within a group. -/
def firstCol (f : RTRow → Option ℚ) (rows : List RTRow) : Option ℚ :=
  (rows.filterMap f).head?

/-- groupby last: last non-NaN value of a column within a group. -/
def lastCol (f : RTRow → Option ℚ) (rows : List RTRow) : Option ℚ :=
  (rows.filterMap f).getLast?

/-- groupby max (skipna). -/
def maxCol (f : RTRow → Option ℚ) (rows : List RTRow) : Option ℚ :=
  (rows.filterMap f).max?

/-- groupby min (skipna). -/
def minCol (f : RTRow → Option ℚ) (rows : List RTRow) : Option ℚ :=
  (rows.filterMap f).min?

/-- groupby sum (skipna; 0 when every value of the group is NaN). -/
def sumCol (f : RTRow → Option ℚ) (rows : List RTRow) : ℚ :=
  (rows.filterMap f).sum

/-- One OHLC(V) output row built from one group (lines 265-286):
open/high/low/close from the price column, volume the sum of the size
column, every opt column the last non-NaN value, and the datetime index
the timestamp of the first row of the group (groupped.T.head(1)). -/
def aggBucket (rows : List RTRow) : BarRow :=
  { time := (rows.head?.map RTRow.time).getD 0,
    symbol := "", symbol_group := "", asset_class := "",
    open_ := firstCol RTRow.price rows,
    high := maxCol RTRow.price rows,
    low := minCol RTRow.price rows,
    close := lastCol RTRow.price rows,
    volume := some (sumCol RTRow.size rows),
    opt_price := lastCol RTRow.opt_price rows,
    opt_underlying := lastCol RTRow.opt_underlying rows,
    opt_dividend := lastCol RTRow.opt_dividend rows,
    opt_volume := lastCol RTRow.opt_volume rows,
    opt_iv := lastCol RTRow.opt_iv rows,
    opt_oi := lastCol RTRow.opt_oi rows,
    opt_delta := lastCol RTRow.opt_delta rows,
    opt_gamma := lastCol RTRow.opt_gamma rows,
    opt_theta := lastCol RTRow.opt_theta rows,
    opt_vega := lastCol RTRow.opt_vega rows }

/-- resample_ticks (tools.py lines 214-288) on the extracted working frame.
byCol is the by argument: 'size', 'lastsize' or 'volume' select the
cumulative-volume grouping, anything else ('last') the every-N-rows
grouping.  grp markers are computed on the unfilled columns, the first row
is forced to 0, the whole frame (grp included) is forward filled, rows with
a NaN grp are dropped by the groupby, and each group is aggregated. -/
def resample_ticks (rows : List RTRow) (freq : ℕ) (byCol : String) : List BarRow :=
  let markers :=
    if byCol = "size" ∨ byCol = "lastsize" ∨ byCol = "volume"
    then volGrpMarkers freq (rows.map RTRow.size)
    else tickGrpMarkers freq rows.length
  let grps := grpsOf markers
  let filled := ffillRT rtNone rows
  let pairs := (List.zip grps filled).filterMap
    (fun p => p.1.map (fun k => (k, p.2)))
  (groupRows pairs).map (fun kv => aggBucket kv.2)

/-- A loaded DataFrame: either tick rows (columns last/lastsize present)
or bar rows (columns open/high/low/close/volume present).  The try/except
column probe of resample_ticks and the column dictionaries of the time
path key off this distinction. -/
inductive FrameData
  | ticks (rows : List Tick)
  | bars (rows : List BarRow)
  deriving DecidableEq, Repr

def FrameData.len : FrameData → ℕ
  | .ticks rows => rows.length
  | .bars rows => rows.length

/-- Python exceptions escaping resample, per the taxonomy of the spec:
configError is the ValueError of int('') on a digit-less resolution;
badFreq the pandas ValueError on an unrecognized offset alias;
schemaError the KeyError on a column required by the selected mode;
unknownTZ the pytz UnknownTimeZoneError of tz_convert on a bad zone name
reached through the naive-index fallback; tzTypeError the TypeError of
tz_localize applied to an already aware index. -/
inductive ResErr
  | configError
  | badFreq
  | schemaError (col : String)
  | unknownTZ
  | tzTypeError
  deriving DecidableEq, Repr

/-- int(''.join(digits of resolution)): none models the ValueError on a
digit-less string. -/
def parsePeriods (res : String) : Option ℕ :=
  match res.toList.filter Char.isDigit with
  | [] => none
  | ds => some (ds.foldl (fun n c => 10 * n + (c.toNat - 48)) 0)

def hasChar (res : String) (c : Char) : Bool := res.toList.contains c

/-- sym[-3:], the last three characters of the symbol string. -/
def suffix3 (s : String) : List Char := (s.toList.reverse.take 3).reverse

/-- sym[-3:] in ("OPT", "FOP"): the option / future-option classification
used by the completeness filter. -/
def isOptSym (s : String) : Bool :=
  suffix3 s = "OPT".toList || suffix3 s = "FOP".toList

def coreSome (b : BarRow) : Bool :=
  b.open_.isSome && b.high.isSome && b.low.isSome && b.close.isSome &&
    b.volume.isSome

def barAllSome (b : BarRow) : Bool :=
  coreSome b && b.opt_price.isSome && b.opt_underlying.isSome &&
    b.opt_dividend.isSome && b.opt_volume.isSome && b.opt_iv.isSome &&
    b.opt_oi.isSome && b.opt_delta.isSome && b.opt_gamma.isSome &&
    b.opt_theta.isSome && b.opt_vega.isSome

/-- dropna(subset=['open','high','low','close','volume']). -/
def dropnaSubset (bs : List BarRow) : List BarRow := bs.filter coreSome

/-- dropna() over all columns (the string-valued metadata columns are
never null, so only the Option columns matter). -/
def dropnaAll (bs : List BarRow) : List BarRow := bs.filter barAllSome

/-- The per-symbol cleanup block shared by all three paths (lines 307-310,
325-328, 405-408): drop rows missing a core OHLCV field, and for symbols
ending in OPT or FOP additionally drop rows missing any field at all. -/
def cleanupSym (sym : String) (bs : List BarRow) : List BarRow :=
  let b1 := dropnaSubset bs
  if isOptSym sym then dropnaAll b1 else b1

/-- symdata['symbol'] = sym and the two metadata columns. -/
def addMeta (sym grp cls : String) (bs : List BarRow) : List BarRow :=
  bs.map (fun b => { b with symbol := sym, symbol_group := grp, asset_class := cls })

def insertSorted (s : String) : List String → List String
  | [] => [s]
  | x :: xs => if s ≤ x then s :: x :: xs else x :: insertSorted s xs

def sortStrs (l : List String) : List String := l.foldr insertSorted []

/-- meta_data.index.values: the distinct symbols of the frame, in the
ascending order produced by groupby('symbol'). -/
def symbolsOf : FrameData → List String
  | .ticks rows => sortStrs (rows.map Tick.symbol).dedup
  | .bars rows => sortStrs (rows.map BarRow.symbol).dedup

/-- meta_data for one symbol: symbol_group and asset_class taken from that
symbol's last row (groupby last; these columns are never null). -/
def metaFor : FrameData → String → String × String
  | .ticks rows, sym =>
    (((rows.filter (fun r => r.symbol = sym)).getLast?).map
      (fun r => (r.symbol_group, r.asset_class))).getD ("", "")
  | .bars rows, sym =>
    (((rows.filter (fun r => r.symbol = sym)).getLast?).map
      (fun r => (r.symbol_group, r.asset_class))).getD ("", "")

/-- data[data['symbol']==sym] reduced to the working frame of
resample_ticks (the try/except column probe: last/lastsize for a tick
frame, close/volume for a bar frame). -/
def rtRowsFor : FrameData → String → List RTRow
  | .ticks rows, sym => (rows.filter (fun r => r.symbol = sym)).map Tick.toRT
  | .bars rows, sym => (rows.filter (fun r => r.symbol = sym)).map BarRow.toRT

/-- One symbol of the K / V branch (lines 300-312 and 318-330). -/
def kvPathSym (data : FrameData) (sym : String) (periods : ℕ) (byCol : String) :
    List BarRow :=
  let m := metaFor data sym
  cleanupSym sym (addMeta sym m.1 m.2 (resample_ticks (rtRowsFor data sym) periods byCol))
/-- A pandas calendar offset, as consumed by DataFrame.resample.
Modelled from the spec resolution grammar (S seconds, T minutes, H hours,
D days, W weeks): bin k covers timestamps t with
(t - offset) div seconds = k, bins are aligned to absolute epoch
boundaries (offset 0) except the weekly anchor, and the row label of bin k
is its left edge shifted by labelShift (0 except for W, whose bins are
labelled by the Sunday on which they end). -/
structure TimeFreq where
  seconds : ℕ
  offset : ℤ
  labelShift : ℤ
  deriving DecidableEq, Repr

/-- Modelled from the spec: the offset-alias parser of pandas (an external
collaborator), restricted to the unit letters of the ResolutionSpec
grammar; any other alias is the pandas ValueError for an unrecognized
frequency. -/
def parseTimeFreq (res : String) : Option TimeFreq :=
  let p := (parsePeriods res).getD 1
  match res.toList.filter (fun c => !c.isDigit) with
  | ['S'] => some { seconds := p * 1, offset := 0, labelShift := 0 }
  | ['T'] => some { seconds := p * 60, offset := 0, labelShift := 0 }
  | ['H'] => some { seconds := p * 3600, offset := 0, labelShift := 0 }
  | ['D'] => some { seconds := p * 86400, offset := 0, labelShift := 0 }
  | ['W'] => some { seconds := p * 604800, offset := -259200, labelShift := (p * 604800 : ℤ) - 86400 }
  | _ => none

def bucketIdx (tf : TimeFreq) (t : ℤ) : ℤ := (t - tf.offset).fdiv (tf.seconds : ℤ)

def bucketLabel (tf : TimeFreq) (idx : ℤ) : ℤ :=
  tf.offset + idx * (tf.seconds : ℤ) + tf.labelShift

/-- The rows of one calendar bin. -/
def bucketRowsB (tf : TimeFreq) (rows : List BarRow) (idx : ℤ) : List BarRow :=
  rows.filter (fun r => bucketIdx tf r.time = idx)

/-- resample(resolution).apply(bars_ohlc_dict) for one bin: first/max/min/
last on the four price columns, skipna sum on volume, last on every opt
column.  A bin with no rows is the all-NaN row that calendar resampling
synthesizes (its volume too: the source comments that volume is null on
rows created by resample and fills it afterwards). -/
def aggBarBucket (tf : TimeFreq) (idx : ℤ) (rows : List BarRow) : BarRow :=
  { time := bucketLabel tf idx,
    symbol := "", symbol_group := "", asset_class := "",
    open_ := (rows.filterMap BarRow.open_).head?,
    high := (rows.filterMap BarRow.high).max?,
    low := (rows.filterMap BarRow.low).min?,
    close := (rows.filterMap BarRow.close).getLast?,
    volume := if rows.isEmpty then none else some (rows.filterMap BarRow.volume).sum,
    opt_price := (rows.filterMap BarRow.opt_price).getLast?,
    opt_underlying := (rows.filterMap BarRow.opt_underlying).getLast?,
    opt_dividend := (rows.filterMap BarRow.opt_dividend).getLast?,
    opt_volume := (rows.filterMap BarRow.opt_volume).getLast?,
    opt_iv := (rows.filterMap BarRow.opt_iv).getLast?,
    opt_oi := (rows.filterMap BarRow.opt_oi).getLast?,
    opt_delta := (rows.filterMap BarRow.opt_delta).getLast?,
    opt_gamma := (rows.filterMap BarRow.opt_gamma).getLast?,
    opt_theta := (rows.filterMap BarRow.opt_theta).getLast?,
    opt_vega := (rows.filterMap BarRow.opt_vega).getLast? }

/-- Calendar resampling of a bar frame: one aggregated row per bin from
the bin of the earliest timestamp through the bin of the latest, empty
bins included. -/
def timeResampleB (tf : TimeFreq) (rows : List BarRow) : List BarRow :=
  match (rows.map (fun r => bucketIdx tf r.time)).min?,
        (rows.map (fun r => bucketIdx tf r.time)).max? with
  | some lo, some hi =>
    (List.range (hi - lo + 1).toNat).map
      (fun j : ℕ => aggBarBucket tf (lo + (j : ℤ)) (bucketRowsB tf rows (lo + (j : ℤ))))
  | _, _ => []

def barNone : BarRow :=
  { time := 0, symbol := "", symbol_group := "", asset_class := "",
    open_ := none, high := none, low := none, close := none, volume := none,
    opt_price := none, opt_underlying := none, opt_dividend := none,
    opt_volume := none, opt_iv := none, opt_oi := none, opt_delta := none,
    opt_gamma := none, opt_theta := none, opt_vega := none }

/-- symdata['volume'].fillna(0). -/
def fillVolumeZero (bs : List BarRow) : List BarRow :=
  bs.map (fun b => { b with volume := some (b.volume.getD 0) })

/-- One row of symdata.ffill(): each column keeps its value when present
and takes the running last-seen value when null. -/
def fillMerge (prev b : BarRow) : BarRow :=
  { b with
    open_ := b.open_.orElse (fun _ => prev.open_),
    high := b.high.orElse (fun _ => prev.high),
    low := b.low.orElse (fun _ => prev.low),
    close := b.close.orElse (fun _ => prev.close),
    volume := b.volume.orElse (fun _ => prev.volume),
    opt_price := b.opt_price.orElse (fun _ => prev.opt_price),
    opt_underlying := b.opt_underlying.orElse (fun _ => prev.opt_underlying),
    opt_dividend := b.opt_dividend.orElse (fun _ => prev.opt_dividend),
    opt_volume := b.opt_volume.orElse (fun _ => prev.opt_volume),
    opt_iv := b.opt_iv.orElse (fun _ => prev.opt_iv),
    opt_oi := b.opt_oi.orElse (fun _ => prev.opt_oi),
    opt_delta := b.opt_delta.orElse (fun _ => prev.opt_delta),
    opt_gamma := b.opt_gamma.orElse (fun _ => prev.opt_gamma),
    opt_theta := b.opt_theta.orElse (fun _ => prev.opt_theta),
    opt_vega := b.opt_vega.orElse (fun _ => prev.opt_vega) }

/-- symdata.ffill(): forward fill every column, each independently (the
filled row is also the running state, being non-null wherever any earlier
row was). -/
def ffillBars (prev : BarRow) : List BarRow → List BarRow
  | [] => []
  | b :: bs => fillMerge prev b :: ffillBars (fillMerge prev b) bs

/-- numpy NaN <= 0 is False, so np.where(volume <= 0, ...) fires only on
non-null volumes. -/
def volLE0 (b : BarRow) : Bool :=
  match b.volume with
  | some v => v ≤ 0
  | none => false

/-- The ffill=True arm: open/high/low take the (already forward filled)
close wherever volume <= 0. -/
def whereFfill (b : BarRow) : BarRow :=
  if volLE0 b then { b with open_ := b.close, high := b.close, low := b.close } else b

/-- The ffill=False arm: open/high/low/close become NaN wherever
volume <= 0. -/
def whereNoFfill (b : BarRow) : BarRow :=
  if volLE0 b then { b with open_ := none, high := none, low := none, close := none }
  else b

/-- Lines 380-395: the gap-repair block, run only when calendar resampling
produced more rows than the original symbol slice. -/
def gapFillStep (ff : Bool) (originalLength : ℕ) (agg : List BarRow) : List BarRow :=
  if originalLength < agg.length then
    let s := ffillBars barNone (fillVolumeZero agg)
    if ff then s.map whereFfill else s.map whereNoFfill
  else agg

/-- One symbol of the non-sub-minute time branch (lines 376-408): calendar
resample with bars_ohlc_dict, gap repair, the optional dropna() of the
dropna flag, metadata, and the shared cleanup. -/
def timePathSym (tf : TimeFreq) (ff dn : Bool) (data : FrameData) (sym : String)
    (rows : List BarRow) : List BarRow :=
  let agg := timeResampleB tf rows
  let filled := gapFillStep ff rows.length agg
  let d := if dn then dropnaAll filled else filled
  let m := metaFor data sym
  cleanupSym sym (addMeta sym m.1 m.2 d)

/-- Sub-minute bins of a tick frame: open/high/low/close straight from the
last column via Series.resample(resolution).ohlc(), volume the bin sum of
lastsize (renamed), opt columns last (lines 368-375; no gap repair and no
dropna flag on this branch). -/
def aggTickBucketS (tf : TimeFreq) (idx : ℤ) (rows : List Tick) : BarRow :=
  { time := bucketLabel tf idx,
    symbol := "", symbol_group := "", asset_class := "",
    open_ := (rows.filterMap Tick.last).head?,
    high := (rows.filterMap Tick.last).max?,
    low := (rows.filterMap Tick.last).min?,
    close := (rows.filterMap Tick.last).getLast?,
    volume := if rows.isEmpty then none else some (rows.filterMap Tick.lastsize).sum,
    opt_price := (rows.filterMap Tick.opt_price).getLast?,
    opt_underlying := (rows.filterMap Tick.opt_underlying).getLast?,
    opt_dividend := (rows.filterMap Tick.opt_dividend).getLast?,
    opt_volume := (rows.filterMap Tick.opt_volume).getLast?,
    opt_iv := (rows.filterMap Tick.opt_iv).getLast?,
    opt_oi := (rows.filterMap Tick.opt_oi).getLast?,
    opt_delta := (rows.filterMap Tick.opt_delta).getLast?,
    opt_gamma := (rows.filterMap Tick.opt_gamma).getLast?,
    opt_theta := (rows.filterMap Tick.opt_theta).getLast?,
    opt_vega := (rows.filterMap Tick.opt_vega).getLast? }

def timeResampleS (tf : TimeFreq) (rows : List Tick) : List BarRow :=
  match (rows.map (fun r => bucketIdx tf r.time)).min?,
        (rows.map (fun r => bucketIdx tf r.time)).max? with
  | some lo, some hi =>
    (List.range (hi - lo + 1).toNat).map
      (fun j : ℕ => aggTickBucketS tf (lo + (j : ℤ))
        (rows.filter (fun r => bucketIdx tf r.time = lo + (j : ℤ))))
  | _, _ => []

/-- One symbol of the sub-minute branch, plus metadata and cleanup. -/
def sPathSym (tf : TimeFreq) (data : FrameData) (sym : String) (rows : List Tick) :
    List BarRow :=
  let m := metaFor data sym
  cleanupSym sym (addMeta sym m.1 m.2 (timeResampleS tf rows))

/-- data['volume'].astype(int) after the time-branch concat: numpy
truncation toward zero.  The preceding cleanup has dropped every row with
a null volume, so the cast never sees NaN. -/
def astypeIntVol (bs : List BarRow) : List BarRow :=
  bs.map (fun b => { b with volume := b.volume.map (fun v => ((truncQ v : ℤ) : ℚ)) })

/-- str(data.index.tz): the zone name for an aware index, the string None
for a naive one. -/
def strOfTz : Option String → String
  | some z => z
  | none => "None"

/-- Lines 415-428, the output timezone block.  vtz is the pytz zone table
(an external collaborator): vtz z is whether z names a known zone.
When the caller passed no tz the code adopts str(data.index.tz); then
tz_convert succeeds on an aware index iff the target zone exists, and on
failure the except arm runs tz_localize('UTC').tz_convert(tz), which
raises TypeError on an already aware index and UnknownTimeZoneError on a
bad zone name. -/
def tzStep (vtz : String → Bool) (indexTz tz : Option String) :
    Except ResErr (Option String) :=
  let t := tz.getD (strOfTz indexTz)
  match indexTz with
  | some _ => if vtz t then .ok (some t) else .error .tzTypeError
  | none => if vtz t then .ok (some t) else .error .unknownTZ

/-- resample (tools.py lines 212-428).  Arguments mirror the source
(data, resolution, tz, ffill, dropna) plus the index timezone of the
input frame and the pytz table vtz.  Returns the output frame and its
index timezone, or the escaping exception. -/
def resample (vtz : String → Bool) (data : FrameData) (indexTz : Option String)
    (resolution : String) (tz : Option String) (ffill dropna : Bool) :
    Except ResErr (FrameData × Option String) :=
  let step1 : Except ResErr FrameData :=
    if 0 < data.len then
      match parsePeriods resolution with
      | none => .error .configError
      | some periods =>
        if hasChar resolution 'K' then
          if 1 < periods then
            .ok (.bars ((symbolsOf data).flatMap (fun sym => kvPathSym data sym periods "last")))
          else .ok data
        else if hasChar resolution 'V' then
          if 1 < periods then
            .ok (.bars ((symbolsOf data).flatMap (fun sym => kvPathSym data sym periods "lastsize")))
          else .ok data
        else
          match parseTimeFreq resolution with
          | none => .error .badFreq
          | some tf =>
            if hasChar resolution 'S' then
              match data with
              | .ticks _ =>
                .ok (.bars (astypeIntVol ((symbolsOf data).flatMap
                  (fun sym => sPathSym tf data sym
                    (match data with
                     | .ticks rows => rows.filter (fun r => r.symbol = sym)
                     | .bars _ => [])))))
              | .bars _ => .error (.schemaError "last")
            else
              match data with
              | .bars rows =>
                .ok (.bars (astypeIntVol ((symbolsOf data).flatMap
                  (fun sym => timePathSym tf ffill dropna data sym
                    (rows.filter (fun r => r.symbol = sym))))))
              | .ticks _ => .error (.schemaError "open")
    else .ok data
  match step1 with
  | .error e => .error e
  | .ok d => (tzStep vtz indexTz tz).map (fun z => (d, z))

/-- A concrete AAPL tick for the scenarios. -/
def mkAAPL (t : ℤ) (p v : ℚ) : Tick :=
  { time := t, symbol := "AAPL", symbol_group := "NQ", asset_class := "STK",
    last := some p, lastsize := some v,
    opt_price := none, opt_underlying := none, opt_dividend := none,
    opt_volume := none, opt_iv := none, opt_oi := none, opt_delta := none,
    opt_gamma := none, opt_theta := none, opt_vega := none }

/-- A concrete fully populated bar row for the scenarios. -/
def mkBar (t : ℤ) (o h l c v : ℚ) : BarRow :=
  { barNone with
      time := t, symbol := "SYM", symbol_group := "G",
      asset_class := "STK", open_ := some o, high := some h, low := some l,
      close := some c, volume := some v }

/-- A one-zone pytz table for closed witnesses: only UTC exists
(in particular the string None is not a zone). -/
def utcOnlyTz : String → Bool := fun s => s = "UTC"

/-- Plain running cumulative sums: the view of the cumvol column when no
size cell is null. -/
def cumsAux (acc : ℚ) : List ℚ → List ℚ
  | [] => []
  | s :: xs => (acc + s) :: cumsAux (acc + s) xs

/-- The Bar invariant of the spec: when all four price fields are
non-null, low <= open <= high and low <= close <= high; a non-null volume
is non-negative. -/
def barInvariant (b : BarRow) : Prop :=
  (∀ o h l c : ℚ, b.open_ = some o → b.high = some h → b.low = some l →
     b.close = some c → l ≤ o ∧ o ≤ h ∧ l ≤ c ∧ c ≤ h)
  ∧ (∀ v : ℚ, b.volume = some v → 0 ≤ v)

/-- An input bar row whose four price fields are all present and
internally consistent. -/
def priceDisciplined (b : BarRow) : Prop :=
  ∃ o h l c : ℚ, b.open_ = some o ∧ b.high = some h ∧ b.low = some l ∧
    b.close = some c ∧ l ≤ o ∧ o ≤ h ∧ l ≤ c ∧ c ≤ h

/-- Every size-like input field non-negative where present. -/
def sizesNonneg : FrameData → Prop
  | .ticks rows => ∀ r ∈ rows, ∀ v : ℚ, r.lastsize = some v → 0 ≤ v
  | .bars rows => ∀ r ∈ rows, ∀ v : ℚ, r.volume = some v → 0 ≤ v

/-- C1: tick mode, Scenario A.  Three AAPL ticks at 10:00:00/01/02 with
prices 10, 11, 9 and sizes 5, 5, 5, resampled at resolution 3K, produce
exactly one Bar with open 10, high 11, low 9, close 9, volume 15, indexed
by the first timestamp.  vtz is the pytz table; the input index is
UTC-aware. -/
theorem resample_scenarioA (vtz : String → Bool) (hutc : vtz "UTC" = true) :
    resample vtz
      (.ticks [mkAAPL 36000 10 5, mkAAPL 36001 11 5, mkAAPL 36002 9 5])
      (some "UTC") "3K" none true false
    = .ok (.bars [{ barNone with
        time := 36000, symbol := "AAPL",
        symbol_group := "NQ", asset_class := "STK",
        open_ := some 10, high := some 11, low := some 9, close := some 9,
        volume := some 15 }], some "UTC") := by
  have hper : parsePeriods "3K" = some 3 := by decide
  have hK : hasChar "3K" 'K' = true := by decide
  simp [resample, FrameData.len, hper, hK, symbolsOf, sortStrs,
    insertSorted, metaFor, rtRowsFor, kvPathSym, Tick.toRT, mkAAPL,
    resample_ticks, tickGrpMarkers, grpsOf, forceFirst, ffillCol, ffillRT,
    rtNone, groupRows, keysInOrder, keysInOrderAux, aggBucket, firstCol,
    lastCol, maxCol, minCol, sumCol, addMeta, cleanupSym, dropnaSubset,
    coreSome, isOptSym, suffix3, tzStep, strOfTz, hutc, List.range_succ,
    barNone, List.filterMap, List.filter, Except.map]
  norm_num

/-- C1 witness: the theorem applied to the one-zone pytz table. -/
theorem resample_scenarioA_witness :
    resample utcOnlyTz
      (.ticks [mkAAPL 36000 10 5, mkAAPL 36001 11 5, mkAAPL 36002 9 5])
      (some "UTC") "3K" none true false
    = .ok (.bars [{ barNone with
        time := 36000, symbol := "AAPL",
        symbol_group := "NQ", asset_class := "STK",
        open_ := some 10, high := some 11, low := some 9, close := some 9,
        volume := some 15 }], some "UTC") :=
  resample_scenarioA utcOnlyTz (by decide)

/-- C10: with a tick-count or volume resolution whose parsed period is 1,
resample performs no bucketing at all: the frame is handed unchanged to
the final timezone normalization (lines 298-299 and 316-317 guard the two
count branches with periods greater than 1). -/
theorem period_one_passthrough (vtz : String → Bool) (data : FrameData)
    (idxTz tz : Option String) (ff dn : Bool) (res : String)
    (hne : 0 < data.len) (hper : parsePeriods res = some 1)
    (hkv : hasChar res 'K' = true ∨ hasChar res 'V' = true) :
    resample vtz data idxTz res tz ff dn
      = (tzStep vtz idxTz tz).map (fun z => (data, z)) := by
  unfold resample
  rcases hkv with h | h
  · simp [hne, hper, h]
  · by_cases hK : hasChar res 'K' = true
    · simp [hne, hper, hK]
    · simp [hne, hper, hK, h]

/-- C10 witness: resolutions 1K and 1V on a one-tick frame. -/
theorem period_one_passthrough_witness :
    resample utcOnlyTz (.ticks [mkAAPL 36000 10 5]) (some "UTC") "1K" none true false
      = .ok (.ticks [mkAAPL 36000 10 5], some "UTC")
  ∧ resample utcOnlyTz (.ticks [mkAAPL 36000 10 5]) (some "UTC") "1V" none true false
      = .ok (.ticks [mkAAPL 36000 10 5], some "UTC") := by
  constructor
  · have h := period_one_passthrough utcOnlyTz (.ticks [mkAAPL 36000 10 5])
      (some "UTC") none true false "1K" (by decide) (by decide) (Or.inl (by decide))
    rw [h]; simp [tzStep, strOfTz, utcOnlyTz, Except.map]
  · have h := period_one_passthrough utcOnlyTz (.ticks [mkAAPL 36000 10 5])
      (some "UTC") none true false "1V" (by decide) (by decide) (Or.inr (by decide))
    rw [h]; simp [tzStep, strOfTz, utcOnlyTz, Except.map]

/-- C7 amended: on a NON-EMPTY input frame, an unrecognized resolution
makes resample raise before producing any output: a digit-less resolution
(such as XYZ) raises at period parsing, before any bucketing; a resolution
with digits but an unrecognized unit letter reaches the time branch and
raises the pandas unknown-offset error there.  (On a zero-row input no
error is raised at all: see the counterexample.) -/
theorem unrecognized_resolution_amended (vtz : String → Bool) (data : FrameData)
    (idxTz tz : Option String) (ff dn : Bool) (res : String)
    (hne : 0 < data.len) :
    (parsePeriods res = none →
      resample vtz data idxTz res tz ff dn = .error .configError)
  ∧ (∀ p, parsePeriods res = some p →
      hasChar res 'K' = false → hasChar res 'V' = false →
      parseTimeFreq res = none →
      resample vtz data idxTz res tz ff dn = .error .badFreq) := by
  constructor
  · intro h; unfold resample; simp [hne, h]
  · intro p hp hK hV htf; unfold resample; simp [hne, hp, hK, hV, htf]

/-- C7 counterexample: the claim quantifies over every input dataset, but
on a zero-row input resolution XYZ raises nothing and the empty frame is
returned unchanged (line 291 skips everything when len(data) == 0). -/
theorem unrecognized_resolution_counterexample :
    resample utcOnlyTz (.ticks []) (some "UTC") "XYZ" none true false
      = .ok (.ticks [], some "UTC") := by
  unfold resample
  simp [FrameData.len, tzStep, strOfTz, utcOnlyTz, Except.map]

/-- C7 witness: a one-tick frame with resolutions XYZ and 5X. -/
theorem unrecognized_resolution_witness :
    resample utcOnlyTz (.ticks [mkAAPL 36000 10 5]) (some "UTC") "XYZ" none true false
      = .error .configError
  ∧ resample utcOnlyTz (.ticks [mkAAPL 36000 10 5]) (some "UTC") "5X" none true false
      = .error .badFreq := by
  constructor
  · exact (unrecognized_resolution_amended utcOnlyTz _ _ _ _ _ _ (by decide)).1
      (by decide)
  · exact (unrecognized_resolution_amended utcOnlyTz _ _ _ _ _ _ (by decide)).2
      5 (by decide) (by decide) (by decide) (by decide)

/-- C8 amended: a zero-row input makes resample skip all bucketing and
return the zero-row frame unchanged apart from the final timezone
normalization - so the output carries the INPUT schema, and no exception
is raised provided that normalization succeeds (aware index and no tz
argument, or any index and a valid tz argument). -/
theorem empty_input_amended (vtz : String → Bool) (data : FrameData)
    (idxTz tz : Option String) (res : String) (ff dn : Bool)
    (h0 : data.len = 0) :
    (resample vtz data idxTz res tz ff dn
       = (tzStep vtz idxTz tz).map (fun z => (data, z)))
  ∧ (∀ z, idxTz = some z → tz = none → vtz z = true →
       resample vtz data idxTz res tz ff dn = .ok (data, some z))
  ∧ (∀ z, tz = some z → vtz z = true →
       resample vtz data idxTz res tz ff dn = .ok (data, some z)) := by
  have hmain : resample vtz data idxTz res tz ff dn
      = (tzStep vtz idxTz tz).map (fun z => (data, z)) := by
    unfold resample; simp [h0]
  refine ⟨hmain, ?_, ?_⟩
  · rintro z rfl rfl hz
    rw [hmain]; simp [tzStep, strOfTz, hz, Except.map]
  · rintro z rfl hz
    rw [hmain]
    cases idxTz <;> simp [tzStep, strOfTz, hz, Except.map]

/-- C8 counterexample, two failures of the claim as stated.  First, with a
tz-naive index and no tz argument even the zero-row call raises (the
str(None) timezone slip), so it is not exception-free for every
configuration.  Second, the zero-row output keeps the input tick schema
while the non-empty result of the same call carries the bar schema, so the
schemas differ. -/
theorem empty_input_counterexample :
    resample utcOnlyTz (.ticks []) none "1T" none true false
      = .error .unknownTZ
  ∧ resample utcOnlyTz (.ticks []) (some "UTC") "3K" none true false
      = .ok (.ticks [], some "UTC")
  ∧ resample utcOnlyTz
      (.ticks [mkAAPL 36000 10 5, mkAAPL 36001 11 5, mkAAPL 36002 9 5])
      (some "UTC") "3K" none true false
    = .ok (.bars [{ barNone with
        time := 36000, symbol := "AAPL",
        symbol_group := "NQ", asset_class := "STK",
        open_ := some 10, high := some 11, low := some 9, close := some 9,
        volume := some 15 }], some "UTC")
  ∧ FrameData.ticks [] ≠ FrameData.bars [{ barNone with
        time := 36000, symbol := "AAPL",
        symbol_group := "NQ", asset_class := "STK",
        open_ := some 10, high := some 11, low := some 9, close := some 9,
        volume := some 15 }] := by
  refine ⟨?_, ?_, ?_, by simp⟩
  · unfold resample
    simp [FrameData.len, tzStep, strOfTz, utcOnlyTz, Except.map]
  · unfold resample
    simp [FrameData.len, tzStep, strOfTz, utcOnlyTz, Except.map]
  · have hper : parsePeriods "3K" = some 3 := by decide
    have hK : hasChar "3K" 'K' = true := by decide
    simp [resample, FrameData.len, hper, hK, symbolsOf, sortStrs,
      insertSorted, metaFor, rtRowsFor, kvPathSym, Tick.toRT, mkAAPL,
      resample_ticks, tickGrpMarkers, grpsOf, forceFirst, ffillCol, ffillRT,
      rtNone, groupRows, keysInOrder, keysInOrderAux, aggBucket, firstCol,
      lastCol, maxCol, minCol, sumCol, addMeta, cleanupSym, dropnaSubset,
      coreSome, isOptSym, suffix3, tzStep, strOfTz, utcOnlyTz,
      List.range_succ, barNone, List.filterMap, List.filter, Except.map]
    norm_num

/-- C6: the timezone slip at the failing input of the claim.  With the tz
argument omitted and a tz-naive index, line 418 computes
tz = str(data.index.tz) = the string None, tz_convert then fails, and the
except arm's tz_localize('UTC').tz_convert('None') raises
UnknownTimeZoneError - the call aborts instead of localizing the output
to UTC as the claim (and the surrounding code structure) intends. -/
theorem tz_naive_default_crash (vtz : String → Bool)
    (hNone : vtz "None" = false) :
    tzStep vtz none none = .error .unknownTZ
  ∧ resample vtz
      (.ticks [mkAAPL 36000 10 5, mkAAPL 36001 11 5, mkAAPL 36002 9 5])
      none "3K" none true false = .error .unknownTZ := by
  have ht : tzStep vtz none none = .error .unknownTZ := by
    simp [tzStep, strOfTz, hNone]
  refine ⟨ht, ?_⟩
  have hper : parsePeriods "3K" = some 3 := by decide
  have hK : hasChar "3K" 'K' = true := by decide
  unfold resample
  simp [FrameData.len, hper, hK, ht, Except.map]

/-- C6 witness: the one-zone pytz table does not know a zone called None. -/
theorem tz_naive_default_crash_witness :
    tzStep utcOnlyTz none none = .error .unknownTZ
  ∧ resample utcOnlyTz
      (.ticks [mkAAPL 36000 10 5, mkAAPL 36001 11 5, mkAAPL 36002 9 5])
      none "3K" none true false = .error .unknownTZ :=
  tz_naive_default_crash utcOnlyTz (by decide)

/-- C9: the completeness filter.  For an option or future-option symbol
(last three characters OPT or FOP) a bucket survives iff no field at all
is missing; for any other symbol a bucket survives iff none of open, high,
low, close, volume is missing. -/
theorem completeness_filter (sym : String) (bs : List BarRow) (b : BarRow) :
    (isOptSym sym = true →
      (b ∈ cleanupSym sym bs ↔ b ∈ bs ∧ barAllSome b = true))
  ∧ (isOptSym sym = false →
      (b ∈ cleanupSym sym bs ↔ b ∈ bs ∧ coreSome b = true)) := by
  constructor
  · intro h
    simp [cleanupSym, h, dropnaAll, dropnaSubset, List.mem_filter,
      barAllSome, Bool.and_eq_true, coreSome]
    tauto
  · intro h
    simp [cleanupSym, h, dropnaSubset, List.mem_filter]

/-- C9 witness: a bar with all opt columns null survives the filter under
a plain symbol and is dropped under an OPT-suffixed one. -/
theorem completeness_filter_witness :
    isOptSym "XOPT" = true
  ∧ mkBar 0 1 1 1 1 1 ∉ cleanupSym "XOPT" [mkBar 0 1 1 1 1 1]
  ∧ isOptSym "AAPL" = false
  ∧ mkBar 0 1 1 1 1 1 ∈ cleanupSym "AAPL" [mkBar 0 1 1 1 1 1] := by
  have h1 := (completeness_filter "XOPT" [mkBar 0 1 1 1 1 1]
    (mkBar 0 1 1 1 1 1)).1 (by decide)
  have h2 := (completeness_filter "AAPL" [mkBar 0 1 1 1 1 1]
    (mkBar 0 1 1 1 1 1)).2 (by decide)
  refine ⟨by decide, ?_, by decide, ?_⟩
  · intro hm
    have hall := (h1.mp hm).2
    simp [mkBar, barNone, barAllSome, coreSome] at hall
  · exact h2.mpr ⟨by simp, by simp [mkBar, barNone, coreSome]⟩

set_option maxRecDepth 8000 in
/-- C2 counterexample: period 10, sizes 1, 1, 13.  The cumulative sums are
1, 2, 15; the third row is assigned bucket 2 although its cumulative sum
15 does not lie in that bucket's claimed range of 20 to 30 (the rounded
mark jumps straight from 0 to 20), so bucket assignment is not by the
half-open ranges n*p to (n+1)*p. -/
theorem volume_bucketing_counterexample :
    grpsOf (volGrpMarkers 10 [some 1, some 1, some 13])
      = [some 0, some 0, some 2]
  ∧ cumsumSkip 0 [some 1, some 1, some 13] = [some 1, some 2, some 15]
  ∧ ¬((2 * 10 : ℚ) ≤ 15 ∧ (15 : ℚ) < (2 + 1) * 10) := by
  refine ⟨?_, by norm_num [cumsumSkip], by norm_num⟩
  norm_num [grpsOf, volGrpMarkers, cumsumSkip, markOf, pyRound, diffFill,
    forceFirst, ffillCol, -Int.self_sub_floor]

/-- Every natural below n with quotient k by p, when bucket k is full. -/
theorem count_div_eq (p k n : ℕ) (hp : 0 < p) (hn : (k + 1) * p ≤ n) :
    (List.range n).countP (fun i => i / p = k) = p := by
  have h1 : ∀ i : ℕ, (i < n ∧ i / p = k) ↔ (k * p ≤ i ∧ i < (k + 1) * p) := by
    intro i
    constructor
    · rintro ⟨hin, rfl⟩
      refine ⟨Nat.div_mul_le_self i p, ?_⟩
      have hdm := Nat.div_add_mod i p
      have hlt := Nat.mod_lt i hp
      have hh : (i / p + 1) * p = p * (i / p) + p := by ring
      omega
    · rintro ⟨hlo, hhi⟩
      exact ⟨lt_of_lt_of_le hhi hn, Nat.div_eq_of_lt_le hlo hhi⟩
  have h2 : (List.range n).countP (fun i => i / p = k)
      = Nat.count (fun i => i / p = k) n := by
    simp [Nat.count]
  rw [h2, Nat.count_eq_card_filter_range]
  have h3 : (Finset.range n).filter (fun i => i / p = k)
      = Finset.Ico (k * p) ((k + 1) * p) := by
    ext i
    simp only [Finset.mem_filter, Finset.mem_range, Finset.mem_Ico]
    exact h1 i
  rw [h3, Nat.card_Ico, add_mul, one_mul, Nat.add_sub_cancel_left]

/-- Forward fill across the tick-mode marker pattern: carrying the last
multiple of p, every row i ends up with grp value p * (i / p). -/
theorem ffillCol_tick (p : ℕ) :
    ∀ (cnt start : ℕ),
      ffillCol (some ((p : ℤ) * ((start / p : ℕ) : ℤ)))
        ((List.range' (start + 1) cnt).map
          (fun i => if i % p = 0 then some (i : ℤ) else none))
      = (List.range' (start + 1) cnt).map
          (fun i => some ((p : ℤ) * ((i / p : ℕ) : ℤ))) := by
  intro cnt
  induction cnt with
  | zero => intro start; simp [ffillCol]
  | succ m ih =>
    intro start
    rw [List.range'_succ, List.map_cons, List.map_cons]
    by_cases hdvd : (start + 1) % p = 0
    · have hd : p ∣ start + 1 := Nat.dvd_of_mod_eq_zero hdvd
      have hval : ((start + 1 : ℕ) : ℤ) = (p : ℤ) * (((start + 1) / p : ℕ) : ℤ) := by
        conv_lhs => rw [← Nat.mul_div_cancel' hd]
        push_cast
        ring
      rw [if_pos hdvd]
      show some ((start + 1 : ℕ) : ℤ)
          :: ffillCol (some ((start + 1 : ℕ) : ℤ))
            ((List.range' (start + 1 + 1) m).map
              (fun i => if i % p = 0 then some (i : ℤ) else none)) = _
      rw [hval, ih (start + 1)]
    · have hnd : ¬ p ∣ (start + 1) := by
        rw [Nat.dvd_iff_mod_eq_zero]; exact hdvd
      have hq : (start + 1) / p = start / p := by
        rw [Nat.succ_div, if_neg hnd, add_zero]
      rw [if_neg hdvd]
      show some ((p : ℤ) * ((start / p : ℕ) : ℤ))
          :: ffillCol (some ((p : ℤ) * ((start / p : ℕ) : ℤ)))
            ((List.range' (start + 1 + 1) m).map
              (fun i => if i % p = 0 then some (i : ℤ) else none)) = _
      rw [show ((p : ℤ) * ((start / p : ℕ) : ℤ))
            = (p : ℤ) * (((start + 1) / p : ℕ) : ℤ) by rw [hq],
          ih (start + 1)]

/-- The tick-mode grp column in closed form: after the forced first row
and the forward fill, row i carries the value p * (i / p) - the index of
the row that opened its bucket, so rows share a grp value exactly when
they share the quotient i / p. -/
theorem tickGrps_formula (p n : ℕ) :
    grpsOf (tickGrpMarkers p n)
      = (List.range n).map (fun i => some ((p : ℤ) * ((i / p : ℕ) : ℤ))) := by
  cases n with
  | zero => simp [grpsOf, tickGrpMarkers, forceFirst, ffillCol]
  | succ m =>
    have h0 : ((p : ℤ) * ((0 / p : ℕ) : ℤ)) = 0 := by simp
    have hrec := ffillCol_tick p m 0
    rw [h0] at hrec
    unfold grpsOf tickGrpMarkers
    rw [List.range_eq_range', List.range'_succ, List.map_cons, List.map_cons]
    rw [if_pos (Nat.zero_mod p)]
    simp only [forceFirst, ffillCol]
    rw [hrec, h0]

/-- C3: tick-count bucketing.  The grp assignment is given by the closed
formula above; two rows land in the same bucket iff they share the
quotient index / p; the first row is in bucket 0; and every bucket that is
not cut short by the end of the input contains exactly p rows. -/
theorem tick_bucketing (p n : ℕ) (hp : 0 < p) :
    (grpsOf (tickGrpMarkers p n)
       = (List.range n).map (fun i => some ((p : ℤ) * ((i / p : ℕ) : ℤ))))
  ∧ (∀ i j, i < n → j < n →
      ((grpsOf (tickGrpMarkers p n))[i]? = (grpsOf (tickGrpMarkers p n))[j]?
        ↔ i / p = j / p))
  ∧ (0 < n → (grpsOf (tickGrpMarkers p n)).head? = some (some 0))
  ∧ (∀ k : ℕ, (k + 1) * p ≤ n →
      (grpsOf (tickGrpMarkers p n)).countP
        (fun g => g = some ((p : ℤ) * (k : ℤ))) = p) := by
  have hp2 : (p : ℤ) ≠ 0 := by exact_mod_cast hp.ne'
  have hf := tickGrps_formula p n
  refine ⟨hf, ?_, ?_, ?_⟩
  · intro i j hi hj
    rw [hf, List.getElem?_map, List.getElem?_map,
      List.getElem?_range hi, List.getElem?_range hj]
    simp only [Option.map_some']
    constructor
    · intro h
      have h2 : ((p : ℤ) * ((i / p : ℕ) : ℤ)) = ((p : ℤ) * ((j / p : ℕ) : ℤ)) := by
        have h3 := h
        injection h3 with h4
        injection h4
      have h5 := mul_left_cancel₀ hp2 h2
      exact_mod_cast h5
    · intro h; rw [h]
  · intro hn
    rw [hf]
    cases n with
    | zero => omega
    | succ m =>
      rw [List.range_eq_range', List.range'_succ, List.map_cons]
      simp
  · intro k hk
    rw [hf, List.countP_map]
    rw [List.countP_congr (q := fun i => i / p = k) ?_]
    · exact count_div_eq p k n hp hk
    · intro i _
      simp only [Function.comp, decide_eq_true_eq, Option.some.injEq]
      constructor
      · intro h
        have h5 := mul_left_cancel₀ hp2 h
        exact_mod_cast h5
      · intro h; rw [h]

/-- C3 witness: period 3 on seven rows gives buckets of rows
0-2, 3-5 and 6, the first full bucket holding exactly three rows. -/
theorem tick_bucketing_witness :
    grpsOf (tickGrpMarkers 3 7)
      = [some 0, some 0, some 0, some 3, some 3, some 3, some 6]
  ∧ (grpsOf (tickGrpMarkers 3 7)).countP (fun g => g = some 0) = 3 := by
  have h := tick_bucketing 3 7 (by decide)
  constructor
  · rw [h.1]; decide
  · have h2 := h.2.2.2 0 (by decide)
    simpa using h2

/-- C8 witness: a zero-row bar frame with an aware index is returned
unchanged for an arbitrary resolution and configuration. -/
theorem empty_input_witness :
    resample utcOnlyTz (.bars []) (some "UTC") "5T" none false true
      = .ok (.bars [], some "UTC") :=
  ((empty_input_amended utcOnlyTz (.bars []) (some "UTC") none "5T" false true
    (by decide)).2.1) "UTC" rfl rfl (by decide)

/-- Half-to-even rounding never moves below the floor. -/
theorem floor_le_pyRound (q : ℚ) : ⌊q⌋ ≤ pyRound q := by
  unfold pyRound; split_ifs <;> omega

/-- Half-to-even rounding never moves above the ceiling step. -/
theorem pyRound_le_floor_add_one (q : ℚ) : pyRound q ≤ ⌊q⌋ + 1 := by
  unfold pyRound; split_ifs <;> omega

/-- Half-to-even rounding is monotone. -/
theorem pyRound_mono {a b : ℚ} (h : a ≤ b) : pyRound a ≤ pyRound b := by
  have hf : ⌊a⌋ ≤ ⌊b⌋ := Int.floor_le_floor h
  rcases lt_or_eq_of_le hf with hlt | heq
  · have h1 := pyRound_le_floor_add_one a
    have h2 := floor_le_pyRound b
    omega
  · unfold pyRound
    rw [← heq]
    split_ifs <;> first | omega | linarith

/-- The rounded mark is monotone in the cumulative volume. -/
theorem markOf_mono (p : ℕ) (hp : 0 < p) {a b : ℚ} (h : a ≤ b) :
    markOf p a ≤ markOf p b := by
  have hp2 : (0:ℚ) < (p:ℚ) := by exact_mod_cast hp
  unfold markOf
  have h1 : pyRound (a / (1/10)) ≤ pyRound (b / (1/10)) := by
    apply pyRound_mono
    gcongr
  have h1q : ((pyRound (a / (1/10)) : ℤ) : ℚ) ≤ ((pyRound (b / (1/10)) : ℤ) : ℚ) := by
    exact_mod_cast h1
  have h2 : pyRound ((pyRound (a / (1/10)) : ℚ) * (1/10) * 100)
      ≤ pyRound ((pyRound (b / (1/10)) : ℚ) * (1/10) * 100) := by
    apply pyRound_mono
    linarith
  have h2q : ((pyRound ((pyRound (a / (1/10)) : ℚ) * (1/10) * 100) : ℤ) : ℚ)
      ≤ ((pyRound ((pyRound (b / (1/10)) : ℚ) * (1/10) * 100) : ℤ) : ℚ) := by
    exact_mod_cast h2
  apply pyRound_mono
  gcongr

/-- The diff >= freq - 1 test on marks that are exact multiples of freq is
exactly a strict increase of the rounded value (freq at least 2). -/
theorem boundary_iff (p : ℕ) (hp : 2 ≤ p) (A B : ℤ) :
    ((p : ℤ) - 1 ≤ A * p - B * p) ↔ B < A := by
  have hpz : (2:ℤ) ≤ (p:ℤ) := by exact_mod_cast hp
  constructor
  · intro h
    by_contra hno
    push_neg at hno
    have h1 : 0 ≤ (B - A) * (p:ℤ) := mul_nonneg (by omega) (by positivity)
    rw [sub_mul] at h1
    linarith
  · intro h
    have h1 : (1:ℤ) ≤ A - B := by omega
    have h2 : (1:ℤ) * (p:ℤ) ≤ (A - B) * (p:ℤ) :=
      mul_le_mul_of_nonneg_right h1 (by positivity)
    rw [sub_mul, one_mul] at h2
    linarith

/-- cumsum on a column with no null cells is the plain cumulative sum. -/
theorem cumsumSkip_map_some (acc : ℚ) (l : List ℚ) :
    cumsumSkip acc (l.map some) = (cumsAux acc l).map some := by
  induction l generalizing acc with
  | nil => simp [cumsumSkip, cumsAux]
  | cons s xs ih => simp [cumsumSkip, cumsAux, ih]

/-- The fused tail invariant of the volume-mode pipeline: beyond the first
row, forward-filling the thresholded markers realizes the closed formula
(bucket id is the rounded mark divided by p, except that rows still at the
first row's rounded value stay in the forced bucket 0). -/
theorem volGrp_fused (p : ℕ) (hp : 2 ≤ p) (m0 : ℤ) :
    ∀ (rest : List ℚ) (pc : ℚ), (∀ s ∈ rest, 0 ≤ s) → m0 ≤ markOf p pc →
      ffillCol (some (if markOf p pc = m0 then 0 else markOf p pc))
        (List.zipWith
          (fun d m => if (p : ℤ) - 1 ≤ d
                      then Option.map (fun v => v / (p : ℤ)) m else none)
          (diffFill (some (markOf p pc * (p : ℤ)))
            ((cumsAux pc rest).map (fun c => some (markOf p c * (p : ℤ)))))
          ((cumsAux pc rest).map (fun c => some (markOf p c * (p : ℤ)))))
      = (cumsAux pc rest).map
          (fun c => some (if markOf p c = m0 then 0 else markOf p c)) := by
  intro rest
  induction rest with
  | nil =>
    intro pc _ _
    simp [cumsAux, diffFill, ffillCol]
  | cons s xs ih =>
    intro pc hnn hm0
    have hp0 : 0 < p := by omega
    have hpzq : ((p:ℤ)) ≠ 0 := by exact_mod_cast hp0.ne'
    have hs : (0:ℚ) ≤ s := hnn s (by simp)
    have hmono : markOf p pc ≤ markOf p (pc + s) :=
      markOf_mono p hp0 (by linarith)
    have htail : ∀ t ∈ xs, (0:ℚ) ≤ t := fun t ht => hnn t (by simp [ht])
    simp only [cumsAux, List.map_cons, diffFill, List.zipWith]
    by_cases hb : markOf p pc < markOf p (pc + s)
    · have hcond : (p : ℤ) - 1
          ≤ markOf p (pc + s) * (p:ℤ) - markOf p pc * (p:ℤ) :=
        (boundary_iff p hp _ _).mpr hb
      rw [if_pos hcond]
      have hdiv : (markOf p (pc + s) * (p:ℤ)) / (p:ℤ) = markOf p (pc + s) :=
        Int.mul_ediv_cancel _ hpzq
      simp only [Option.map_some', hdiv, ffillCol]
      have hne : markOf p (pc + s) ≠ m0 := by omega
      rw [if_neg hne]
      have ih2 := ih (pc + s) htail (by omega)
      rw [if_neg hne] at ih2
      simp only [List.cons.injEq]
      exact ⟨trivial, ih2⟩
    · have heq : markOf p (pc + s) = markOf p pc :=
        le_antisymm (not_lt.mp hb) hmono
      have hcond : ¬ ((p : ℤ) - 1
          ≤ markOf p (pc + s) * (p:ℤ) - markOf p pc * (p:ℤ)) := by
        rw [(boundary_iff p hp _ _)]
        omega
      rw [if_neg hcond]
      simp only [ffillCol]
      rw [heq]
      have ih2 := ih (pc + s) htail (by omega)
      rw [heq] at ih2
      simp only [List.cons.injEq]
      exact ⟨trivial, ih2⟩

/-- C2 amended: with period p at least 2 and non-negative non-null sizes,
the volume-mode grp column is given by the closed formula: each row
carries the rounded mark of its cumulative size divided by p, except that
rows whose rounded mark still equals the first row's rounded mark remain
in the forced bucket 0.  So buckets are delimited by the ROUNDED
cumulative reaching a new multiple of p, not by the raw cumulative
entering the range n*p to (n+1)*p. -/
theorem volume_bucketing_amended (p : ℕ) (sizes : List ℚ) (hp : 2 ≤ p)
    (hnn : ∀ s ∈ sizes, 0 ≤ s) :
    grpsOf (volGrpMarkers p (sizes.map some))
      = (cumsAux 0 sizes).map
          (fun c => some (if markOf p c = markOf p ((cumsAux 0 sizes).headD 0)
                          then 0 else markOf p c)) := by
  cases sizes with
  | nil =>
    simp [grpsOf, volGrpMarkers, cumsAux, cumsumSkip, diffFill, forceFirst,
      ffillCol]
  | cons s xs =>
    have hs : (0:ℚ) ≤ s := hnn s (by simp)
    have htail : ∀ t ∈ xs, (0:ℚ) ≤ t := fun t ht => hnn t (by simp [ht])
    have hpz2 : ¬ ((p : ℤ) - 1 ≤ 0) := by
      have : (2:ℤ) ≤ (p:ℤ) := by exact_mod_cast hp
      omega
    unfold grpsOf volGrpMarkers
    rw [cumsumSkip_map_some]
    simp only [cumsAux, List.map_cons, List.map_map, zero_add]
    simp only [Function.comp_def, Option.map_some', diffFill, List.zipWith]
    rw [if_neg hpz2]
    simp only [forceFirst, ffillCol, List.headD_cons]
    simp only [List.cons.injEq]
    refine ⟨by simp, ?_⟩
    have h := volGrp_fused p hp (markOf p s) xs s htail (le_refl _)
    rw [if_pos rfl] at h
    exact h

set_option maxRecDepth 8000 in
/-- C2 witness: period 10 with sizes 5, 5, 5.  Cumulative sums 5, 10, 15
round to marks 0, 10, 20 (5 rounds DOWN to 0 by half-to-even), so the grp
column produced by the closed formula is 0, 1, 2. -/
theorem volume_bucketing_amended_witness :
    grpsOf (volGrpMarkers 10 ([(5:ℚ), 5, 5].map some))
      = [some 0, some 1, some 2] := by
  rw [volume_bucketing_amended 10 [5, 5, 5] (by norm_num) (by norm_num)]
  norm_num [cumsAux, markOf, pyRound, -Int.self_sub_floor]

/-- One step of the last-non-null reduction. -/
theorem lastSomeO_cons {α : Type} (init : Option α) (x : Option α)
    (xs : List (Option α)) :
    lastSomeO init (x :: xs) = lastSomeO (x.orElse (fun _ => init)) xs := rfl

/-- The forward-filled frame at position k: the row keeps its timestamp
and every filled column is its own cell when present, else the last
non-null cell of that column above it (seeded by the incoming state). -/
theorem ffillBars_getElem :
    ∀ (l : List BarRow) (prev : BarRow) (k : ℕ), k < l.length →
      ∃ r e, l[k]? = some e ∧ (ffillBars prev l)[k]? = some r ∧
        r.time = e.time ∧
        r.open_ = e.open_.orElse
          (fun _ => lastSomeO prev.open_ ((l.take k).map BarRow.open_)) ∧
        r.high = e.high.orElse
          (fun _ => lastSomeO prev.high ((l.take k).map BarRow.high)) ∧
        r.low = e.low.orElse
          (fun _ => lastSomeO prev.low ((l.take k).map BarRow.low)) ∧
        r.close = e.close.orElse
          (fun _ => lastSomeO prev.close ((l.take k).map BarRow.close)) ∧
        r.volume = e.volume.orElse
          (fun _ => lastSomeO prev.volume ((l.take k).map BarRow.volume)) := by
  intro l
  induction l with
  | nil => intro prev k hk; simp at hk
  | cons b bs ih =>
    intro prev k hk
    cases k with
    | zero =>
      exact ⟨fillMerge prev b, b, by simp, by simp [ffillBars], rfl, rfl, rfl,
        rfl, rfl, rfl⟩
    | succ k =>
      have hk2 : k < bs.length := by simpa using hk
      obtain ⟨r, e, he, hr, h0, h1, h2, h3, h4, h5⟩ := ih (fillMerge prev b) k hk2
      refine ⟨r, e, by simpa using he, by simpa [ffillBars] using hr, h0,
        ?_, ?_, ?_, ?_, ?_⟩
      · rw [h1]
        rw [List.take_succ_cons, List.map_cons, lastSomeO_cons]
        rfl
      · rw [h2, List.take_succ_cons, List.map_cons, lastSomeO_cons]
        rfl
      · rw [h3, List.take_succ_cons, List.map_cons, lastSomeO_cons]
        rfl
      · rw [h4, List.take_succ_cons, List.map_cons, lastSomeO_cons]
        rfl
      · rw [h5, List.take_succ_cons, List.map_cons, lastSomeO_cons]
        rfl

/-- Calendar resampling on a frame whose bucket range is known. -/
theorem timeResampleB_eq (tf : TimeFreq) (rows : List BarRow) (lo hi : ℤ)
    (hmin : (rows.map (fun r => bucketIdx tf r.time)).min? = some lo)
    (hmax : (rows.map (fun r => bucketIdx tf r.time)).max? = some hi) :
    timeResampleB tf rows
      = (List.range (hi - lo + 1).toNat).map
          (fun j : ℕ => aggBarBucket tf (lo + (j : ℤ))
            (bucketRowsB tf rows (lo + (j : ℤ)))) := by
  unfold timeResampleB
  rw [hmin, hmax]

/-- The volume fillna(0) step touches only the volume column. -/
theorem fillVolumeZero_map_close (agg : List BarRow) :
    (fillVolumeZero agg).map BarRow.close = agg.map BarRow.close := by
  unfold fillVolumeZero
  rw [List.map_map]
  exact List.map_congr_left (fun a _ => rfl)

/-- C5 amended: under time-based resampling with ffill enabled, and
PROVIDED calendar resampling strictly increased the row count over the
original symbol slice (the guard of line 381), every bucket with no
contributing input rows comes out of the gap-repair block with volume 0
and open = high = low = close all equal to the most recent non-null
aggregated close above it, keeping its bucket-label timestamp. -/
theorem gapfill_amended (tf : TimeFreq) (rows : List BarRow) (k : ℕ)
    (hlen : rows.length < (timeResampleB tf rows).length)
    (hk : k < (timeResampleB tf rows).length)
    (hempty : bucketRowsB tf rows
        (((rows.map (fun r => bucketIdx tf r.time)).min?).getD 0 + (k : ℤ)) = []) :
    ∃ r, (gapFillStep true rows.length (timeResampleB tf rows))[k]? = some r
      ∧ r.volume = some 0
      ∧ r.open_ = lastSomeO none
          (((timeResampleB tf rows).take k).map BarRow.close)
      ∧ r.high = lastSomeO none
          (((timeResampleB tf rows).take k).map BarRow.close)
      ∧ r.low = lastSomeO none
          (((timeResampleB tf rows).take k).map BarRow.close)
      ∧ r.close = lastSomeO none
          (((timeResampleB tf rows).take k).map BarRow.close)
      ∧ r.time = bucketLabel tf
          (((rows.map (fun r => bucketIdx tf r.time)).min?).getD 0 + (k : ℤ)) := by
  have hrows : rows ≠ [] := by
    rintro rfl
    simp [timeResampleB] at hlen
  have hmapne : rows.map (fun r => bucketIdx tf r.time) ≠ [] := by
    simpa using hrows
  obtain ⟨lo, hmin⟩ : ∃ lo, (rows.map (fun r => bucketIdx tf r.time)).min? = some lo := by
    rcases h : (rows.map (fun r => bucketIdx tf r.time)).min? with _ | lo
    · exact absurd (List.min?_eq_none_iff.mp h) hmapne
    · exact ⟨lo, h⟩
  obtain ⟨hi, hmax⟩ : ∃ hi, (rows.map (fun r => bucketIdx tf r.time)).max? = some hi := by
    rcases h : (rows.map (fun r => bucketIdx tf r.time)).max? with _ | hi
    · exact absurd (List.max?_eq_none_iff.mp h) hmapne
    · exact ⟨hi, h⟩
  have hagg := timeResampleB_eq tf rows lo hi hmin hmax
  set agg := timeResampleB tf rows with haggdef
  have hkn : k < (hi - lo + 1).toNat := by
    rw [hagg] at hk
    simpa using hk
  have hke : agg[k]?
      = some (aggBarBucket tf (lo + k) (bucketRowsB tf rows (lo + k))) := by
    rw [hagg, List.getElem?_map, List.getElem?_range hkn]
    rfl
  rw [hmin] at hempty
  simp only [Option.getD_some] at hempty
  have hlenfv : (fillVolumeZero agg).length = agg.length := by
    simp [fillVolumeZero]
  obtain ⟨r1, e1, he1, hr1, ht1, ho1, hh1, hl1, hc1, hv1⟩ :=
    ffillBars_getElem (fillVolumeZero agg) barNone k (by rw [hlenfv]; exact hk)
  have he1v : (fillVolumeZero agg)[k]?
      = some { aggBarBucket tf (lo + k) (bucketRowsB tf rows (lo + k)) with
               volume := some ((aggBarBucket tf (lo + k)
                 (bucketRowsB tf rows (lo + k))).volume.getD 0) } := by
    unfold fillVolumeZero
    rw [List.getElem?_map, hke]
    rfl
  have he1eq : e1 = { aggBarBucket tf (lo + k) (bucketRowsB tf rows (lo + k)) with
               volume := some ((aggBarBucket tf (lo + k)
                 (bucketRowsB tf rows (lo + k))).volume.getD 0) } := by
    have := he1.symm.trans he1v
    exact Option.some.inj this
  have hfe : e1.open_ = none ∧ e1.high = none ∧ e1.low = none ∧
      e1.close = none ∧ e1.volume = some 0 ∧
      e1.time = bucketLabel tf (lo + k) := by
    rw [he1eq]
    simp [aggBarBucket, hempty]
  have htake : ((fillVolumeZero agg).take k).map BarRow.close
      = (agg.take k).map BarRow.close := by
    rw [List.map_take, List.map_take, fillVolumeZero_map_close]
  refine ⟨whereFfill r1, ?_, ?_, ?_, ?_, ?_, ?_, ?_⟩
  · have hout : (gapFillStep true rows.length agg)
        = (ffillBars barNone (fillVolumeZero agg)).map whereFfill := by
      unfold gapFillStep
      rw [if_pos hlen]
      simp
    rw [hout, List.getElem?_map, hr1]
    rfl
  all_goals {
    have hvol : r1.volume = some 0 := by
      rw [hv1, hfe.2.2.2.2.1]
      rfl
    have hclose : r1.close = lastSomeO none ((agg.take k).map BarRow.close) := by
      rw [hc1, hfe.2.2.2.1, ← htake]
      rfl
    have hle : volLE0 r1 = true := by
      simp [volLE0, hvol]
    simp only [whereFfill, hle, if_true]
    first
      | exact hvol
      | exact hclose
      | { rw [ht1, hfe.2.2.2.2.2]; simp [hmin] }
  }

/-- C5 witness, Scenario B: 1-minute bars at 10:00 (close 10) and 10:05
only, resolution 1T with ffill; the synthesized 10:01 bucket carries
volume 0 and open = high = low = close = 10, timestamped 10:01. -/
theorem gapfill_amended_witness :
    ∃ r, (gapFillStep true
        ([mkBar 36000 10 10 10 10 5, mkBar 36300 12 12 12 12 7].length)
        (timeResampleB { seconds := 60, offset := 0, labelShift := 0 }
          [mkBar 36000 10 10 10 10 5, mkBar 36300 12 12 12 12 7]))[1]?
      = some r
      ∧ r.volume = some 0 ∧ r.open_ = some 10 ∧ r.high = some 10
      ∧ r.low = some 10 ∧ r.close = some 10 ∧ r.time = 36060 := by
  obtain ⟨r, hr, hv, ho, hh, hl, hc, ht⟩ :=
    gapfill_amended { seconds := 60, offset := 0, labelShift := 0 }
      [mkBar 36000 10 10 10 10 5, mkBar 36300 12 12 12 12 7] 1
      (by decide) (by decide) (by decide)
  have hclose : (((timeResampleB { seconds := 60, offset := 0, labelShift := 0 }
      [mkBar 36000 10 10 10 10 5, mkBar 36300 12 12 12 12 7]).take 1).map
        BarRow.close) = [some 10] := by decide
  have hmin : ((([mkBar 36000 10 10 10 10 5,
      mkBar 36300 12 12 12 12 7]).map
        (fun r => bucketIdx { seconds := 60, offset := 0, labelShift := 0 } r.time)).min?).getD 0
      = 600 := by decide
  refine ⟨r, hr, hv, ?_, ?_, ?_, ?_, ?_⟩
  · rw [ho, hclose]; rfl
  · rw [hh, hclose]; rfl
  · rw [hl, hclose]; rfl
  · rw [hc, hclose]; rfl
  · rw [ht, hmin]; rfl

set_option maxRecDepth 8000 in
/-- C5 counterexample: duplicate input timestamps defeat the claim as
stated.  With bars at 10:00, 10:00 and 10:02, calendar resampling at 1T
synthesizes an empty 10:01 bucket but produces only 3 rows for 3 input
rows, so the length guard of line 381 skips the gap repair, the all-null
10:01 row is dropped by the completeness filter, and the output has no Bar
at 10:01 at all - instead of a volume-0 forward-filled Bar. -/
theorem gapfill_counterexample :
    resample utcOnlyTz
      (.bars [mkBar 36000 10 10 10 10 5, mkBar 36000 11 11 11 11 6,
              mkBar 36120 12 12 12 12 7])
      (some "UTC") "1T" none true false
    = .ok (.bars
        [{ barNone with
            time := 36000, symbol := "SYM", symbol_group := "G",
            asset_class := "STK", open_ := some 10, high := some 11,
            low := some 10, close := some 11, volume := some 11 },
         { barNone with
            time := 36120, symbol := "SYM", symbol_group := "G",
            asset_class := "STK", open_ := some 12, high := some 12,
            low := some 12, close := some 12, volume := some 7 }], some "UTC")
  ∧ bucketRowsB { seconds := 60, offset := 0, labelShift := 0 }
      [mkBar 36000 10 10 10 10 5, mkBar 36000 11 11 11 11 6,
       mkBar 36120 12 12 12 12 7] 601 = []
  ∧ (36060 : ℤ) ∉ [(36000 : ℤ), 36120] := by
  refine ⟨?_, by decide, by decide⟩
  have hper : parsePeriods "1T" = some 1 := by decide
  have hK : hasChar "1T" 'K' = false := by decide
  have hV : hasChar "1T" 'V' = false := by decide
  have hS : hasChar "1T" 'S' = false := by decide
  have htf : parseTimeFreq "1T"
      = some { seconds := 60, offset := 0, labelShift := 0 } := by decide
  have hd1 : Int.fdiv 36000 60 = 600 := by decide
  have hd2 : Int.fdiv 36120 60 = 602 := by decide
  simp [resample, FrameData.len, hper, hK, hV, hS, htf, symbolsOf, sortStrs,
    insertSorted, metaFor, timePathSym, timeResampleB, List.min?, List.max?,
    bucketIdx, bucketRowsB, aggBarBucket, bucketLabel, gapFillStep, addMeta,
    cleanupSym, dropnaSubset, coreSome, isOptSym, suffix3, astypeIntVol,
    truncQ, tzStep, strOfTz, utcOnlyTz, Except.map, mkBar, barNone,
    List.range_succ, List.filter, List.filterMap, hd1, hd2, Int.min_def,
    Int.max_def]
  norm_num

/-- A value read off head? is a member. -/
theorem mem_of_head?_eq {α : Type} {l : List α} {a : α}
    (h : l.head? = some a) : a ∈ l := by
  cases l with
  | nil => simp at h
  | cons x xs =>
    simp only [List.head?_cons, Option.some.injEq] at h
    simp [h]

/-- A value read off getLast? is a member. -/
theorem mem_of_getLast?_eq {α : Type} {l : List α} {a : α}
    (h : l.getLast? = some a) : a ∈ l := by
  induction l with
  | nil => simp at h
  | cons x xs ih =>
    cases xs with
    | nil =>
      simp only [List.getLast?_singleton, Option.some.injEq] at h
      simp [h]
    | cons y ys =>
      rw [List.getLast?_cons_cons] at h
      exact List.mem_cons_of_mem x (ih h)

/-- The skipna max of a column bounds every member and is one of them. -/
theorem max?_spec {l : List ℚ} {m : ℚ} (h : l.max? = some m) :
    m ∈ l ∧ ∀ x ∈ l, x ≤ m := by
  refine ⟨List.max?_mem max_choice h, ?_⟩
  intro x hx
  exact ((List.max?_le_iff (fun _ _ _ => max_le_iff) h).mp le_rfl) x hx

/-- The skipna min of a column is below every member and is one of them. -/
theorem min?_spec {l : List ℚ} {m : ℚ} (h : l.min? = some m) :
    m ∈ l ∧ ∀ x ∈ l, m ≤ x := by
  refine ⟨List.min?_mem min_choice h, ?_⟩
  intro x hx
  exact ((List.le_min?_iff (fun _ _ _ => le_min_iff) h).mp le_rfl) x hx

/-- The OHLC(V) reduction of one count-mode group satisfies the Bar
invariant: all four price fields are drawn from the one price column, and
the volume is a sum of non-negative sizes. -/
theorem aggBucket_invariant (rows : List RTRow)
    (hsz : ∀ r ∈ rows, ∀ v : ℚ, r.size = some v → 0 ≤ v) :
    barInvariant (aggBucket rows) := by
  constructor
  · intro o h l c ho hh hl hc
    simp only [aggBucket, firstCol, lastCol, maxCol, minCol] at ho hh hl hc
    have hom : o ∈ rows.filterMap RTRow.price := mem_of_head?_eq ho
    have hcm : c ∈ rows.filterMap RTRow.price := mem_of_getLast?_eq hc
    have hmax := max?_spec hh
    have hmin := min?_spec hl
    exact ⟨hmin.2 o hom, hmax.2 o hom, hmin.2 c hcm, hmax.2 c hcm⟩
  · intro v hv
    simp only [aggBucket, sumCol, Option.some.injEq] at hv
    rw [← hv]
    apply List.sum_nonneg
    intro x hx
    obtain ⟨r, hr, hrx⟩ := List.mem_filterMap.mp hx
    exact hsz r hr x hrx

/-- Forward filling the working frame keeps the size column non-negative. -/
theorem szOK_ffillRT :
    ∀ (rows : List RTRow) (prev : RTRow),
      (∀ r ∈ rows, ∀ v : ℚ, r.size = some v → 0 ≤ v) →
      (∀ v : ℚ, prev.size = some v → 0 ≤ v) →
      ∀ r ∈ ffillRT prev rows, ∀ v : ℚ, r.size = some v → 0 ≤ v := by
  intro rows
  induction rows with
  | nil => intro prev _ _ r hr; simp [ffillRT] at hr
  | cons x xs ih =>
    intro prev hrows hprev r hr
    simp only [ffillRT, List.mem_cons] at hr
    have hhead : ∀ v : ℚ, (x.size.orElse (fun _ => prev.size)) = some v → 0 ≤ v := by
      intro v hv
      cases hx : x.size with
      | some s =>
        rw [hx] at hv
        simp only [Option.orElse] at hv
        exact hrows x (by simp) v (by rw [hx, hv])
      | none =>
        rw [hx] at hv
        simp only [Option.orElse] at hv
        exact hprev v hv
    rcases hr with rfl | hr
    · intro v hv
      exact hhead v hv
    · exact ih _ (fun r2 hr2 => hrows r2 (by simp [hr2])) hhead r hr

/-- Every bar produced by resample_ticks satisfies the Bar invariant,
whatever the grouping mode, provided input sizes are non-negative. -/
theorem resample_ticks_invariant (rows : List RTRow) (freq : ℕ) (byCol : String)
    (hsz : ∀ r ∈ rows, ∀ v : ℚ, r.size = some v → 0 ≤ v) :
    ∀ b ∈ resample_ticks rows freq byCol, barInvariant b := by
  intro b hb
  unfold resample_ticks at hb
  obtain ⟨kv, hkv, rfl⟩ := List.mem_map.mp hb
  apply aggBucket_invariant
  intro r hr
  unfold groupRows at hkv
  obtain ⟨k, _, rfl⟩ := List.mem_map.mp hkv
  simp only at hr
  obtain ⟨pr, hprf, rfl⟩ := List.mem_map.mp hr
  have hpr : pr ∈ (List.zip
      (grpsOf (if byCol = "size" ∨ byCol = "lastsize" ∨ byCol = "volume"
               then volGrpMarkers freq (rows.map RTRow.size)
               else tickGrpMarkers freq rows.length))
      (ffillRT rtNone rows)).filterMap
        (fun p => p.1.map (fun k => (k, p.2))) := (List.mem_filter.mp hprf).1
  obtain ⟨q, hq, hqe⟩ := List.mem_filterMap.mp hpr
  have hq2 : q.2 ∈ ffillRT rtNone rows := (List.of_mem_zip hq).2
  have hsnd : pr.2 = q.2 := by
    cases hq1 : q.1 with
    | none => rw [hq1] at hqe; simp at hqe
    | some k0 =>
      rw [hq1] at hqe
      simp only [Option.map_some', Option.some.injEq] at hqe
      rw [← hqe]
  rw [hsnd]
  exact szOK_ffillRT rows rtNone hsz (by simp [rtNone]) q.2 hq2

/-- The bars_ohlc_dict reduction of one calendar bin: an empty bin is the
all-null synthetic row; a non-empty bin of disciplined rows is again
disciplined, with a non-negative summed volume. -/
theorem aggBarBucket_good (tf : TimeFreq) (idx : ℤ) (rows : List BarRow)
    (hpd : ∀ r ∈ rows, priceDisciplined r)
    (hsz : ∀ r ∈ rows, ∀ v : ℚ, r.volume = some v → 0 ≤ v) :
    (priceDisciplined (aggBarBucket tf idx rows)
      ∨ ((aggBarBucket tf idx rows).open_ = none
        ∧ (aggBarBucket tf idx rows).high = none
        ∧ (aggBarBucket tf idx rows).low = none
        ∧ (aggBarBucket tf idx rows).close = none
        ∧ (aggBarBucket tf idx rows).volume = none))
    ∧ (∀ v : ℚ, (aggBarBucket tf idx rows).volume = some v → 0 ≤ v) := by
  cases rows with
  | nil =>
    refine ⟨Or.inr ?_, ?_⟩
    · simp [aggBarBucket]
    · intro v hv; simp [aggBarBucket] at hv
  | cons r0 rest =>
    obtain ⟨o0, h0, l0, c0, ho0, hh0, hl0, hc0, hlo0, hoh0, hlc0, hch0⟩ :=
      hpd r0 (by simp)
    constructor
    · left
      have hopens : (r0 :: rest).filterMap BarRow.open_ = o0 :: rest.filterMap BarRow.open_ := by
        simp [ho0]
      have hhighs : h0 ∈ (r0 :: rest).filterMap BarRow.high :=
        List.mem_filterMap.mpr ⟨r0, by simp, hh0⟩
      have hlows : l0 ∈ (r0 :: rest).filterMap BarRow.low :=
        List.mem_filterMap.mpr ⟨r0, by simp, hl0⟩
      obtain ⟨mh, hmh⟩ : ∃ mh, ((r0 :: rest).filterMap BarRow.high).max? = some mh := by
        cases hmax : ((r0 :: rest).filterMap BarRow.high).max? with
        | none =>
          rw [List.max?_eq_none_iff] at hmax
          rw [hmax] at hhighs
          simp at hhighs
        | some mh => exact ⟨mh, rfl⟩
      obtain ⟨ml, hml⟩ : ∃ ml, ((r0 :: rest).filterMap BarRow.low).min? = some ml := by
        cases hmin : ((r0 :: rest).filterMap BarRow.low).min? with
        | none =>
          rw [List.min?_eq_none_iff] at hmin
          rw [hmin] at hlows
          simp at hlows
        | some ml => exact ⟨ml, rfl⟩
      obtain ⟨cl, hcl⟩ : ∃ cl, ((r0 :: rest).filterMap BarRow.close).getLast? = some cl := by
        cases hlast : ((r0 :: rest).filterMap BarRow.close).getLast? with
        | none =>
          rw [List.getLast?_eq_none_iff] at hlast
          have : c0 ∈ (r0 :: rest).filterMap BarRow.close :=
            List.mem_filterMap.mpr ⟨r0, by simp, hc0⟩
          rw [hlast] at this
          simp at this
        | some cl => exact ⟨cl, rfl⟩
      obtain ⟨rc, hrc, hrcc⟩ :=
        List.mem_filterMap.mp (mem_of_getLast?_eq hcl)
      obtain ⟨oc, hc2, lc, cc, hoc, hhc, hlc2, hcc, hlo2, hoh2, hlc3, hch2⟩ :=
        hpd rc hrc
      have hcc2 : cl = cc := by
        rw [hrcc] at hcc
        exact Option.some.inj hcc
      have hrchigh : hc2 ∈ (r0 :: rest).filterMap BarRow.high :=
        List.mem_filterMap.mpr ⟨rc, hrc, hhc⟩
      have hrclow : lc ∈ (r0 :: rest).filterMap BarRow.low :=
        List.mem_filterMap.mpr ⟨rc, hrc, hlc2⟩
      refine ⟨o0, mh, ml, cl, ?_, ?_, ?_, ?_, ?_, ?_, ?_, ?_⟩
      · simp [aggBarBucket, hopens]
      · simp [aggBarBucket, hmh]
      · simp [aggBarBucket, hml]
      · simp [aggBarBucket, hcl]
      · exact le_trans ((min?_spec hml).2 l0 hlows) hlo0
      · exact le_trans hoh0 ((max?_spec hmh).2 h0 hhighs)
      · rw [hcc2]
        exact le_trans ((min?_spec hml).2 lc hrclow) hlc3
      · rw [hcc2]
        exact le_trans hch2 ((max?_spec hmh).2 hc2 hrchigh)
    · intro v hv
      simp only [aggBarBucket, List.isEmpty_cons, Bool.false_eq_true,
        if_false, Option.some.injEq] at hv
      rw [← hv]
      apply List.sum_nonneg
      intro x hx
      obtain ⟨r, hr, hrx⟩ := List.mem_filterMap.mp hx
      exact hsz r hr x hrx

/-- The sub-minute reduction of one calendar bin of ticks satisfies the
Bar invariant: all four prices come from the one last column. -/
theorem aggTickBucketS_invariant (tf : TimeFreq) (idx : ℤ) (rows : List Tick)
    (hsz : ∀ r ∈ rows, ∀ v : ℚ, r.lastsize = some v → 0 ≤ v) :
    barInvariant (aggTickBucketS tf idx rows) := by
  constructor
  · intro o h l c ho hh hl hc
    simp only [aggTickBucketS] at ho hh hl hc
    have hom : o ∈ rows.filterMap Tick.last := mem_of_head?_eq ho
    have hcm : c ∈ rows.filterMap Tick.last := mem_of_getLast?_eq hc
    have hmax := max?_spec hh
    have hmin := min?_spec hl
    exact ⟨hmin.2 o hom, hmax.2 o hom, hmin.2 c hcm, hmax.2 c hcm⟩
  · intro v hv
    simp only [aggTickBucketS] at hv
    cases rows with
    | nil => simp at hv
    | cons r0 rest =>
      simp only [List.isEmpty_cons, Bool.false_eq_true, if_false,
        Option.some.injEq] at hv
      rw [← hv]
      apply List.sum_nonneg
      intro x hx
      obtain ⟨r, hr, hrx⟩ := List.mem_filterMap.mp hx
      exact hsz r hr x hrx

/-- A disciplined row with a non-negative volume satisfies the invariant. -/
theorem barInvariant_of_disciplined (b : BarRow) (hp : priceDisciplined b)
    (hv : ∀ v : ℚ, b.volume = some v → 0 ≤ v) : barInvariant b := by
  refine ⟨?_, hv⟩
  intro o h l c ho hh hl hc
  obtain ⟨o2, h2, l2, c2, ho2, hh2, hl2, hc2, i1, i2, i3, i4⟩ := hp
  rw [ho2] at ho
  rw [hh2] at hh
  rw [hl2] at hl
  rw [hc2] at hc
  obtain rfl := Option.some.inj ho
  obtain rfl := Option.some.inj hh
  obtain rfl := Option.some.inj hl
  obtain rfl := Option.some.inj hc
  exact ⟨i1, i2, i3, i4⟩

theorem ffillBars_length (prev : BarRow) (l : List BarRow) :
    (ffillBars prev l).length = l.length := by
  induction l generalizing prev with
  | nil => simp [ffillBars]
  | cons b bs ih => simp [ffillBars, ih]

/-- Every row leaving the gap-repair block satisfies the Bar invariant,
for both settings of the fill flag, provided every aggregated row is
either a disciplined real bucket with non-negative volume or an all-null
synthetic bucket. -/
theorem gapFillStep_invariant (ff : Bool) (orig : ℕ) (agg : List BarRow)
    (hgood : ∀ e ∈ agg,
      (priceDisciplined e
        ∨ (e.open_ = none ∧ e.high = none ∧ e.low = none ∧ e.close = none
            ∧ e.volume = none))
      ∧ (∀ v : ℚ, e.volume = some v → 0 ≤ v)) :
    ∀ b ∈ gapFillStep ff orig agg, barInvariant b := by
  intro b hb
  unfold gapFillStep at hb
  by_cases hguard : orig < agg.length
  case neg =>
    rw [if_neg hguard] at hb
    obtain ⟨hdisc, hvol⟩ := hgood b hb
    refine ⟨?_, hvol⟩
    intro o h l c ho hh hl hc
    rcases hdisc with hd | hnone
    · exact (barInvariant_of_disciplined b hd hvol).1 o h l c ho hh hl hc
    · rw [hnone.1] at ho
      simp at ho
  case pos =>
    rw [if_pos hguard] at hb
    simp only at hb
    have hmain : ∀ b1, b1 ∈ ffillBars barNone (fillVolumeZero agg) →
        (barInvariant (whereFfill b1) ∧ barInvariant (whereNoFfill b1)) := by
      intro b1 hb1
      obtain ⟨k, hk⟩ := List.mem_iff_getElem?.mp hb1
      have hklt : k < (fillVolumeZero agg).length := by
        by_contra hno
        push_neg at hno
        rw [List.getElem?_eq_none (by rw [ffillBars_length]; omega)] at hk
        simp at hk
      obtain ⟨r1, e1, he1, hr1, ht2, ho2, hh2, hl2, hc2, hv2⟩ :=
        ffillBars_getElem (fillVolumeZero agg) barNone k hklt
      have hb1r1 : b1 = r1 := by
        rw [hk] at hr1
        exact Option.some.inj hr1
      subst hb1r1
      have he1m : (agg[k]?).map
          (fun b => { b with volume := some (b.volume.getD 0) }) = some e1 := by
        rw [← he1]
        unfold fillVolumeZero
        rw [List.getElem?_map]
      obtain ⟨e, hek, heq⟩ := Option.map_eq_some'.mp he1m
      have hem : e ∈ agg := List.mem_iff_getElem?.mpr ⟨k, hek⟩
      obtain ⟨hdisc, hvol⟩ := hgood e hem
      have he1o : e1.open_ = e.open_ := by rw [← heq]
      have he1h : e1.high = e.high := by rw [← heq]
      have he1l : e1.low = e.low := by rw [← heq]
      have he1c : e1.close = e.close := by rw [← heq]
      have he1v : e1.volume = some (e.volume.getD 0) := by rw [← heq]
      have hb1vol : ∀ v : ℚ, b1.volume = some v → 0 ≤ v := by
        intro v hv
        rw [hv2, he1v] at hv
        simp only [Option.orElse] at hv
        have hv3 : e.volume.getD 0 = v := Option.some.inj hv
        cases hev : e.volume with
        | some v0 =>
          rw [hev] at hv3
          simp only [Option.getD_some] at hv3
          rw [← hv3]
          exact hvol v0 hev
        | none =>
          rw [hev] at hv3
          simp only [Option.getD_none] at hv3
          rw [← hv3]
      rcases hdisc with hd | hnone
      · obtain ⟨o2, h2, l2, c2, ho3, hh3, hl3, hc3, i1, i2, i3, i4⟩ := hd
        have hb1o : b1.open_ = some o2 := by
          rw [ho2, he1o, ho3]
          rfl
        have hb1h : b1.high = some h2 := by
          rw [hh2, he1h, hh3]
          rfl
        have hb1l : b1.low = some l2 := by
          rw [hl2, he1l, hl3]
          rfl
        have hb1c : b1.close = some c2 := by
          rw [hc2, he1c, hc3]
          rfl
        have hb1disc : priceDisciplined b1 :=
          ⟨o2, h2, l2, c2, hb1o, hb1h, hb1l, hb1c, i1, i2, i3, i4⟩
        constructor
        · unfold whereFfill
          by_cases hle : volLE0 b1
          · rw [if_pos hle]
            refine ⟨?_, fun v hv => hb1vol v hv⟩
            intro o h l c ho hh hl hc
            rw [hb1c] at ho hh hl hc
            obtain rfl := Option.some.inj ho
            obtain rfl := Option.some.inj hh
            obtain rfl := Option.some.inj hl
            obtain rfl := Option.some.inj hc
            exact ⟨le_refl _, le_refl _, le_refl _, le_refl _⟩
          · rw [if_neg hle]
            exact barInvariant_of_disciplined b1 hb1disc hb1vol
        · unfold whereNoFfill
          by_cases hle : volLE0 b1
          · rw [if_pos hle]
            refine ⟨?_, fun v hv => hb1vol v hv⟩
            intro o h l c ho hh hl hc
            simp at ho
          · rw [if_neg hle]
            exact barInvariant_of_disciplined b1 hb1disc hb1vol
      · have hb1v0 : b1.volume = some 0 := by
          rw [hv2, he1v, hnone.2.2.2.2]
          rfl
        have hle : volLE0 b1 = true := by
          simp [volLE0, hb1v0]
        constructor
        · unfold whereFfill
          rw [if_pos hle]
          refine ⟨?_, fun v hv => hb1vol v hv⟩
          intro o h l c ho hh hl hc
          rw [hc] at ho hh hl
          obtain rfl := Option.some.inj ho
          obtain rfl := Option.some.inj hh
          obtain rfl := Option.some.inj hl
          exact ⟨le_refl _, le_refl _, le_refl _, le_refl _⟩
        · unfold whereNoFfill
          rw [if_pos hle]
          refine ⟨?_, fun v hv => hb1vol v hv⟩
          intro o h l c ho hh hl hc
          simp at ho
    cases hff : ff
    · rw [hff] at hb
      simp only [Bool.false_eq_true, if_false] at hb
      obtain ⟨b1, hb1, rfl⟩ := List.mem_map.mp hb
      exact (hmain b1 hb1).2
    · rw [hff] at hb
      simp only [if_true] at hb
      obtain ⟨b1, hb1, rfl⟩ := List.mem_map.mp hb
      exact (hmain b1 hb1).1

/-- Every aggregated calendar bin of a disciplined bar frame is good in
the sense required by the gap-repair lemma. -/
theorem timeResampleB_good (tf : TimeFreq) (rows : List BarRow)
    (hpd : ∀ r ∈ rows, priceDisciplined r)
    (hsz : ∀ r ∈ rows, ∀ v : ℚ, r.volume = some v → 0 ≤ v) :
    ∀ e ∈ timeResampleB tf rows,
      (priceDisciplined e
        ∨ (e.open_ = none ∧ e.high = none ∧ e.low = none ∧ e.close = none
            ∧ e.volume = none))
      ∧ (∀ v : ℚ, e.volume = some v → 0 ≤ v) := by
  intro e he
  unfold timeResampleB at he
  cases hmin : (rows.map (fun r => bucketIdx tf r.time)).min? with
  | none => rw [hmin] at he; simp at he
  | some lo =>
    cases hmax : (rows.map (fun r => bucketIdx tf r.time)).max? with
    | none => rw [hmin, hmax] at he; simp at he
    | some hi =>
      rw [hmin, hmax] at he
      obtain ⟨j, _, rfl⟩ := List.mem_map.mp he
      have hsub1 : ∀ r ∈ bucketRowsB tf rows (lo + (j : ℤ)), priceDisciplined r := by
        intro r hr
        exact hpd r (List.mem_filter.mp hr).1
      have hsub2 : ∀ r ∈ bucketRowsB tf rows (lo + (j : ℤ)),
          ∀ v : ℚ, r.volume = some v → 0 ≤ v := by
        intro r hr
        exact hsz r (List.mem_filter.mp hr).1
      have h := aggBarBucket_good tf (lo + (j : ℤ))
        (bucketRowsB tf rows (lo + (j : ℤ))) hsub1 hsub2
      exact ⟨h.1.imp id (fun hn => ⟨hn.1, hn.2.1, hn.2.2.1, hn.2.2.2.1, hn.2.2.2.2⟩), h.2⟩

/-- Every sub-minute bin bar of a tick frame satisfies the invariant. -/
theorem timeResampleS_invariant (tf : TimeFreq) (rows : List Tick)
    (hsz : ∀ r ∈ rows, ∀ v : ℚ, r.lastsize = some v → 0 ≤ v) :
    ∀ e ∈ timeResampleS tf rows, barInvariant e := by
  intro e he
  unfold timeResampleS at he
  cases hmin : (rows.map (fun r => bucketIdx tf r.time)).min? with
  | none => rw [hmin] at he; simp at he
  | some lo =>
    cases hmax : (rows.map (fun r => bucketIdx tf r.time)).max? with
    | none => rw [hmin, hmax] at he; simp at he
    | some hi =>
      rw [hmin, hmax] at he
      obtain ⟨j, _, rfl⟩ := List.mem_map.mp he
      apply aggTickBucketS_invariant
      intro r hr
      exact hsz r (List.mem_filter.mp hr).1

/-- Setting the three metadata string columns does not affect the
invariant. -/
theorem barInvariant_addMeta (b : BarRow) (sym g c : String)
    (h : barInvariant b) :
    barInvariant { b with symbol := sym, symbol_group := g, asset_class := c } := h

/-- The integer cast of the volume column preserves the invariant. -/
theorem barInvariant_astype (b : BarRow) (h : barInvariant b) :
    barInvariant { b with
      volume := b.volume.map (fun v => ((truncQ v : ℤ) : ℚ)) } := by
  refine ⟨h.1, ?_⟩
  intro v hv
  have hv2 : b.volume.map (fun v => ((truncQ v : ℤ) : ℚ)) = some v := hv
  obtain ⟨v0, hv0, rfl⟩ := Option.map_eq_some'.mp hv2
  have hnn := h.2 v0 hv0
  unfold truncQ
  rw [if_pos hnn]
  exact_mod_cast Int.floor_nonneg.mpr hnn

/-- Rows surviving the completeness filter come from the input list. -/
theorem mem_of_mem_cleanupSym {sym : String} {l : List BarRow} {b : BarRow}
    (h : b ∈ cleanupSym sym l) : b ∈ l := by
  unfold cleanupSym at h
  by_cases ho : isOptSym sym
  · rw [if_pos ho] at h
    exact (List.mem_filter.mp (List.mem_filter.mp h).1).1
  · rw [if_neg ho] at h
    exact (List.mem_filter.mp h).1

/-- The working-frame rows for one symbol carry non-negative sizes when
the input frame does. -/
theorem rtRowsFor_szOK (data : FrameData) (sym : String)
    (hsz : sizesNonneg data) :
    ∀ r ∈ rtRowsFor data sym, ∀ v : ℚ, r.size = some v → 0 ≤ v := by
  intro r hr v hv
  cases data with
  | ticks rows =>
    simp only [rtRowsFor] at hr
    obtain ⟨t, ht, rfl⟩ := List.mem_map.mp hr
    exact hsz t (List.mem_filter.mp ht).1 v hv
  | bars rows =>
    simp only [rtRowsFor] at hr
    obtain ⟨t, ht, rfl⟩ := List.mem_map.mp hr
    exact hsz t (List.mem_filter.mp ht).1 v hv

/-- Extracting the produced frame from the final timezone step. -/
theorem resample_ok_frame {vtz : String → Bool} {d : FrameData}
    {idxTz tz : Option String} {out : List BarRow} {z : Option String}
    (h : (tzStep vtz idxTz tz).map (fun z2 => (d, z2))
          = Except.ok (FrameData.bars out, z)) :
    d = .bars out := by
  cases htz : tzStep vtz idxTz tz with
  | error e =>
    rw [htz] at h
    simp [Except.map] at h
  | ok z2 =>
    rw [htz] at h
    simp only [Except.map, Except.ok.injEq, Prod.mk.injEq] at h
    exact h.1

/-- C4 amended: every output Bar of resample whose OHLC fields are all
non-null satisfies low <= open <= high and low <= close <= high, and
every non-null output volume is non-negative - provided input size fields
are non-negative AND, when the input is a bar frame, each input row's four
price fields are present and internally consistent.  (Without the latter
proviso the claim fails: see the counterexample, where a bar row with a
null open makes the gap-repair forward fill leak a stale open into a later
real bucket.) -/
theorem ohlc_invariant_amended (vtz : String → Bool) (data : FrameData)
    (idxTz tz : Option String) (res : String) (ff dn : Bool)
    (hsz : sizesNonneg data)
    (hbars : ∀ rows, data = .bars rows → ∀ r ∈ rows, priceDisciplined r)
    (out : List BarRow) (z : Option String)
    (hout : resample vtz data idxTz res tz ff dn = .ok (.bars out, z))
    (b : BarRow) (hb : b ∈ out) : barInvariant b := by
  have hpass : data = .bars out → barInvariant b := by
    intro hd
    have hdisc := hbars out hd
    rw [hd] at hsz
    simp only [sizesNonneg] at hsz
    exact barInvariant_of_disciplined b (hdisc b hb) (hsz b hb)
  have hkvcase : ∀ (byCol : String) (periods : ℕ),
      FrameData.bars ((symbolsOf data).flatMap
        (fun sym => kvPathSym data sym periods byCol)) = .bars out →
      barInvariant b := by
    intro byCol periods hd
    injection hd with hd2
    rw [← hd2] at hb
    obtain ⟨sym, _, hbsym⟩ := List.mem_flatMap.mp hb
    simp only [kvPathSym] at hbsym
    have hb2 := mem_of_mem_cleanupSym hbsym
    simp only [addMeta] at hb2
    obtain ⟨b0, hb0, rfl⟩ := List.mem_map.mp hb2
    exact barInvariant_addMeta _ _ _ _
      (resample_ticks_invariant _ _ _ (rtRowsFor_szOK data sym hsz) b0 hb0)
  by_cases h0 : 0 < data.len
  case neg =>
    have heq : resample vtz data idxTz res tz ff dn
        = (tzStep vtz idxTz tz).map (fun z2 => (data, z2)) := by
      unfold resample
      rw [if_neg h0]
    rw [heq] at hout
    exact hpass (resample_ok_frame hout)
  case pos =>
    cases hper : parsePeriods res with
    | none =>
      have heq : resample vtz data idxTz res tz ff dn = .error .configError := by
        unfold resample
        rw [if_pos h0, hper]
      rw [heq] at hout
      exact absurd hout (by simp)
    | some periods =>
      by_cases hK : hasChar res 'K' = true
      · by_cases hpgt : 1 < periods
        · have heq : resample vtz data idxTz res tz ff dn
              = (tzStep vtz idxTz tz).map (fun z2 =>
                  (FrameData.bars ((symbolsOf data).flatMap
                    (fun sym => kvPathSym data sym periods "last")), z2)) := by
            unfold resample
            rw [if_pos h0, hper]
            simp only [hK, if_pos hpgt, if_true]
          rw [heq] at hout
          exact hkvcase "last" periods (resample_ok_frame hout)
        · have heq : resample vtz data idxTz res tz ff dn
              = (tzStep vtz idxTz tz).map (fun z2 => (data, z2)) := by
            unfold resample
            rw [if_pos h0, hper]
            simp only [hK, if_neg hpgt, if_true]
          rw [heq] at hout
          exact hpass (resample_ok_frame hout)
      · by_cases hV : hasChar res 'V' = true
        · by_cases hpgt : 1 < periods
          · have heq : resample vtz data idxTz res tz ff dn
                = (tzStep vtz idxTz tz).map (fun z2 =>
                    (FrameData.bars ((symbolsOf data).flatMap
                      (fun sym => kvPathSym data sym periods "lastsize")), z2)) := by
              unfold resample
              rw [if_pos h0, hper]
              simp only [hK, hV, if_pos hpgt, if_true, Bool.false_eq_true,
                if_false]
            rw [heq] at hout
            exact hkvcase "lastsize" periods (resample_ok_frame hout)
          · have heq : resample vtz data idxTz res tz ff dn
                = (tzStep vtz idxTz tz).map (fun z2 => (data, z2)) := by
              unfold resample
              rw [if_pos h0, hper]
              simp only [hK, hV, if_neg hpgt, if_true, Bool.false_eq_true,
                if_false]
            rw [heq] at hout
            exact hpass (resample_ok_frame hout)
        · cases htf : parseTimeFreq res with
          | none =>
            have heq : resample vtz data idxTz res tz ff dn
                = .error .badFreq := by
              unfold resample
              rw [if_pos h0, hper]
              simp only [hK, hV, htf, Bool.false_eq_true, if_false]
            rw [heq] at hout
            exact absurd hout (by simp)
          | some tf =>
            by_cases hS : hasChar res 'S' = true
            · cases data with
              | bars rows =>
                have heq : resample vtz (.bars rows) idxTz res tz ff dn
                    = .error (.schemaError "last") := by
                  unfold resample
                  rw [if_pos h0, hper]
                  simp only [hK, hV, htf, hS, Bool.false_eq_true, if_false,
                    if_true]
                rw [heq] at hout
                exact absurd hout (by simp)
              | ticks rows =>
                have heq : resample vtz (.ticks rows) idxTz res tz ff dn
                    = (tzStep vtz idxTz tz).map (fun z2 =>
                        (FrameData.bars (astypeIntVol
                          ((symbolsOf (FrameData.ticks rows)).flatMap
                            (fun sym => sPathSym tf (.ticks rows) sym
                              (rows.filter (fun r => r.symbol = sym))))), z2)) := by
                  unfold resample
                  rw [if_pos h0, hper]
                  simp only [hK, hV, htf, hS, Bool.false_eq_true, if_false,
                    if_true]
                rw [heq] at hout
                have hd := resample_ok_frame hout
                injection hd with hd2
                rw [← hd2] at hb
                simp only [astypeIntVol] at hb
                obtain ⟨b1, hb1, rfl⟩ := List.mem_map.mp hb
                obtain ⟨sym, _, hbs⟩ := List.mem_flatMap.mp hb1
                simp only [sPathSym] at hbs
                have hb2 := mem_of_mem_cleanupSym hbs
                simp only [addMeta] at hb2
                obtain ⟨b0, hb0, rfl⟩ := List.mem_map.mp hb2
                apply barInvariant_astype
                apply barInvariant_addMeta
                apply timeResampleS_invariant tf
                  (rows.filter (fun r => r.symbol = sym))
                · intro r hr
                  exact hsz r (List.mem_filter.mp hr).1
                · exact hb0
            · cases data with
              | ticks rows =>
                have heq : resample vtz (.ticks rows) idxTz res tz ff dn
                    = .error (.schemaError "open") := by
                  unfold resample
                  rw [if_pos h0, hper]
                  simp only [hK, hV, htf, hS, Bool.false_eq_true, if_false]
                rw [heq] at hout
                exact absurd hout (by simp)
              | bars rows =>
                have heq : resample vtz (.bars rows) idxTz res tz ff dn
                    = (tzStep vtz idxTz tz).map (fun z2 =>
                        (FrameData.bars (astypeIntVol
                          ((symbolsOf (FrameData.bars rows)).flatMap
                            (fun sym => timePathSym tf ff dn (.bars rows) sym
                              (rows.filter (fun r => r.symbol = sym))))), z2)) := by
                  unfold resample
                  rw [if_pos h0, hper]
                  simp only [hK, hV, htf, hS, Bool.false_eq_true, if_false]
                rw [heq] at hout
                have hd := resample_ok_frame hout
                injection hd with hd2
                rw [← hd2] at hb
                simp only [astypeIntVol] at hb
                obtain ⟨b1, hb1, rfl⟩ := List.mem_map.mp hb
                obtain ⟨sym, _, hbs⟩ := List.mem_flatMap.mp hb1
                simp only [timePathSym] at hbs
                have hb2 := mem_of_mem_cleanupSym hbs
                simp only [addMeta] at hb2
                obtain ⟨b0, hb0, rfl⟩ := List.mem_map.mp hb2
                apply barInvariant_astype
                apply barInvariant_addMeta
                have hsub1 : ∀ r ∈ rows.filter (fun r => r.symbol = sym),
                    priceDisciplined r := by
                  intro r hr
                  exact hbars rows rfl r (List.mem_filter.mp hr).1
                have hsub2 : ∀ r ∈ rows.filter (fun r => r.symbol = sym),
                    ∀ v : ℚ, r.volume = some v → 0 ≤ v := by
                  intro r hr
                  exact hsz r (List.mem_filter.mp hr).1
                have hb0f : b0 ∈ gapFillStep ff
                    (rows.filter (fun r => r.symbol = sym)).length
                    (timeResampleB tf (rows.filter (fun r => r.symbol = sym))) := by
                  cases hdn : dn
                  · rw [hdn] at hb0
                    simpa using hb0
                  · rw [hdn] at hb0
                    simp only [if_true] at hb0
                    exact (List.mem_filter.mp hb0).1
                exact gapFillStep_invariant ff _ _
                  (timeResampleB_good tf _ hsub1 hsub2) b0 hb0f

set_option maxRecDepth 8000 in
/-- C4 counterexample: an input bar row with a null open (high/low/close
present) defeats the claim as stated.  Bars at 10:00 (all 100) and 10:02
(open null, high = low = close = 5): the 10:02 bin aggregates with a null
open, the gap-repair ffill() copies the 10:00 open 100 into it, and the
surviving fully non-null output Bar at 10:02 has open 100 above high 5. -/
theorem ohlc_invariant_counterexample :
    resample utcOnlyTz
      (.bars [mkBar 36000 100 100 100 100 5,
              { mkBar 36120 0 5 5 5 5 with open_ := none }])
      (some "UTC") "1T" none true false
    = .ok (.bars
        [{ barNone with
            time := 36000, symbol := "SYM", symbol_group := "G",
            asset_class := "STK", open_ := some 100, high := some 100,
            low := some 100, close := some 100, volume := some 5 },
         { barNone with
            time := 36060, symbol := "SYM", symbol_group := "G",
            asset_class := "STK", open_ := some 100, high := some 100,
            low := some 100, close := some 100, volume := some 0 },
         { barNone with
            time := 36120, symbol := "SYM", symbol_group := "G",
            asset_class := "STK", open_ := some 100, high := some 5,
            low := some 5, close := some 5, volume := some 5 }], some "UTC")
  ∧ ¬((100 : ℚ) ≤ 5) := by
  refine ⟨?_, by norm_num⟩
  have hper : parsePeriods "1T" = some 1 := by decide
  have hK : hasChar "1T" 'K' = false := by decide
  have hV : hasChar "1T" 'V' = false := by decide
  have hS : hasChar "1T" 'S' = false := by decide
  have htf : parseTimeFreq "1T"
      = some { seconds := 60, offset := 0, labelShift := 0 } := by decide
  have hd1 : Int.fdiv 36000 60 = 600 := by decide
  have hd2 : Int.fdiv 36120 60 = 602 := by decide
  simp [resample, FrameData.len, hper, hK, hV, hS, htf, symbolsOf, sortStrs,
    insertSorted, metaFor, timePathSym, timeResampleB, List.min?, List.max?,
    bucketIdx, bucketRowsB, aggBarBucket, bucketLabel, gapFillStep,
    fillVolumeZero, ffillBars, fillMerge, whereFfill, volLE0, addMeta,
    cleanupSym, dropnaSubset, coreSome, isOptSym, suffix3, astypeIntVol,
    truncQ, tzStep, strOfTz, utcOnlyTz, Except.map, mkBar, barNone,
    List.range_succ, List.filter, List.filterMap, hd1, hd2, Int.min_def,
    Int.max_def, Option.orElse, Option.getD]
  norm_num

/-- C4 witness: the pass-through call at period 1 returns the input bar,
and the amended theorem certifies its invariant. -/
theorem ohlc_invariant_witness : barInvariant (mkBar 36000 10 10 10 10 5) := by
  have hout : resample utcOnlyTz (.bars [mkBar 36000 10 10 10 10 5])
      (some "UTC") "1K" none true false
      = .ok (.bars [mkBar 36000 10 10 10 10 5], some "UTC") := by
    have hper : parsePeriods "1K" = some 1 := by decide
    have hK : hasChar "1K" 'K' = true := by decide
    unfold resample
    simp [FrameData.len, hper, hK, tzStep, strOfTz, utcOnlyTz, Except.map]
  apply ohlc_invariant_amended utcOnlyTz (.bars [mkBar 36000 10 10 10 10 5])
    (some "UTC") none "1K" true false ?_ ?_ [mkBar 36000 10 10 10 10 5]
    (some "UTC") hout (mkBar 36000 10 10 10 10 5) (by simp)
  · intro r hr v hv
    simp only [List.mem_singleton] at hr
    subst hr
    simp only [mkBar, barNone, Option.some.injEq] at hv
    rw [← hv]
    norm_num
  · intro rows hrows r hr
    injection hrows with h2
    rw [← h2] at hr
    simp only [List.mem_singleton] at hr
    subst hr
    exact ⟨10, 10, 10, 10, rfl, rfl, rfl, rfl, le_refl _, le_refl _,
      le_refl _, le_refl _⟩
